import Mathlib

/-!
# headproxy: a verification development

A shallow embedding of `headproxy.go` (package `headproxy`) together with the
parts of the Go standard library and of goquery that the package calls.

Go strings and byte slices are finite byte sequences, so both are modelled by
`List UInt8`.  A function that can return a non-nil `error` or stop with a
run-time panic returns a `Ret`.
-/

set_option maxRecDepth 100000
set_option maxHeartbeats 4000000
set_option linter.dupNamespace false

/-- Go `string` and `[]byte`: a finite sequence of bytes. -/
abbrev Bytes := List UInt8

/-- The bytes of a string literal of the Go source (Go source text is UTF-8). -/
def str (s : String) : Bytes := s.toList.flatMap String.utf8EncodeChar

/-- A Go `error` value, identified with the text its `Error()` method returns. -/
structure GoError where
  Error : Bytes
deriving DecidableEq, Repr

/-- Outcome of a Go call returning `(T, error)`: a value with a nil error, a
non-nil error, or a run-time panic (the call does not return). -/
inductive Ret (α : Type) where
  | ok (v : α)
  | fail (e : GoError)
  | panic
deriving DecidableEq, Repr

instance instDecidableEqExcept {ε α : Type} [DecidableEq ε] [DecidableEq α] :
    DecidableEq (Except ε α)
  | .ok a, .ok b => if h : a = b then isTrue (by rw [h]) else isFalse (fun h2 => h (by cases h2; rfl))
  | .error a, .error b =>
    if h : a = b then isTrue (by rw [h]) else isFalse (fun h2 => h (by cases h2; rfl))
  | .ok _, .error _ => isFalse (fun h => by cases h)
  | .error _, .ok _ => isFalse (fun h => by cases h)

namespace errors

/-- Go `errors.New(text)`. -/
def New (text : Bytes) : GoError := ⟨text⟩

end errors

namespace bytes

/-- Search loop of `bytes.Index`: `k` is the offset of `s` in the searched
slice. -/
def IndexFrom (sep : Bytes) (k : Nat) : Bytes → Int
  | [] => if sep.isEmpty then (k : Int) else -1
  | c :: rest =>
    if sep.isPrefixOf (c :: rest) then (k : Int) else IndexFrom sep (k + 1) rest

/-- Go `bytes.Index(s, sep)`: the index of the first instance of `sep` in `s`,
or `-1` if `sep` is not present in `s`. -/
def Index (s sep : Bytes) : Int := IndexFrom sep 0 s

end bytes

/-- Go slice expression `b[lo:hi]`: `none` stands for the run-time panic
"slice bounds out of range", raised unless `0 ≤ lo ≤ hi ≤ cap(b)`.  The
capacity is taken to be the length; in `extract` the upper index is an index
`bytes.Index` returned, so it never exceeds the length and only `lo ≤ hi`
decides. -/
def sliceExpr (b : Bytes) (lo hi : Int) : Option Bytes :=
  if 0 ≤ lo ∧ lo ≤ hi ∧ hi ≤ (b.length : Int) then
    some ((b.drop lo.toNat).take (hi.toNat - lo.toNat))
  else none

/-- The error `extract` returns when the opening marker is absent. -/
def errNoOpeningHead : GoError :=
  errors.New (str "headproxy: opening <head> tag not present in payload")

/-- The error `extract` returns when the closing marker is absent. -/
def errNoClosingHead : GoError :=
  errors.New (str "headproxy: closing </head> tag not present in payload")

/-- Go `extract` (headproxy.go): the contents of the `<head>` tag of `body`. -/
def extract (body : Bytes) : Ret Bytes :=
  let start := bytes.Index body (str "<head>")
  if start = -1 then .fail errNoOpeningHead
  else
    let stop := bytes.Index body (str "</head>")
    if stop = -1 then .fail errNoClosingHead
    else
      match sliceExpr body (start + 6) stop with
      | some content => .ok content
      | none => .panic

/-- The byte of an ASCII character literal. -/
def ch (c : Char) : UInt8 := c.toNat.toUInt8

/-- Whether `lo ≤ c ≤ hi`, for byte ranges such as `'a' <= c && c <= 'z'`. -/
def inRange (lo hi : Char) (c : UInt8) : Bool := ch lo ≤ c && c ≤ ch hi

namespace strings

/-- Go `strings.HasPrefix(s, prefix)`. -/
def HasPrefix (s pre : Bytes) : Bool := pre.isPrefixOf s

/-- Go `strings.HasSuffix(s, suffix)`. -/
def HasSuffix (s suf : Bytes) : Bool := suf.isSuffixOf s

/-- Go `strings.Index(s, substr)`: index of the first instance, or `-1`. -/
def Index (s substr : Bytes) : Int := bytes.Index s substr

/-- Go `strings.Contains(s, substr)`. -/
def Contains (s substr : Bytes) : Bool := decide (0 ≤ Index s substr)

/-- Scan of `strings.LastIndex`: `k` is the offset of the remaining input and
`last` the latest match seen so far. -/
def LastIndexFrom (substr : Bytes) (k : Nat) (last : Int) : Bytes → Int
  | [] => if substr.isEmpty then (k : Int) else last
  | c :: rest =>
    LastIndexFrom substr (k + 1) (if substr.isPrefixOf (c :: rest) then (k : Int) else last) rest

/-- Go `strings.LastIndex(s, substr)`: index of the last instance, or `-1`. -/
def LastIndex (s substr : Bytes) : Int := LastIndexFrom substr 0 (-1) s

/-- Go `strings.LastIndexByte(s, c)`. -/
def LastIndexByte (s : Bytes) (c : UInt8) : Int := LastIndex s [c]

/-- Go `strings.Cut(s, sep)`: `(before, after, found)`. -/
def Cut (s sep : Bytes) : Bytes × Bytes × Bool :=
  let i := Index s sep
  if 0 ≤ i then (s.take i.toNat, s.drop (i.toNat + sep.length), true)
  else (s, [], false)

/-- Counting loop of `strings.Count` for a non-empty `substr`; `skip` is the
number of bytes of the last counted instance still to be passed over
(instances counted do not overlap). -/
def CountFrom (substr : Bytes) : Nat → Bytes → Nat
  | _, [] => 0
  | skip + 1, _ :: rest => CountFrom substr skip rest
  | 0, c :: rest =>
    if substr.isPrefixOf (c :: rest) then 1 + CountFrom substr (substr.length - 1) rest
    else CountFrom substr 0 rest

/-- Go `strings.Count(s, substr)` for a non-empty `substr`: the number of
non-overlapping instances of `substr` in `s`. -/
def Count (s substr : Bytes) : Nat := CountFrom substr 0 s

/-- Go `strings.ToLower(s)` on ASCII input, where it maps `'A'..'Z'` to
`'a'..'z'` and keeps every other byte (net/url applies it to a scheme, which
`getScheme` makes ASCII-only). -/
def ToLower (s : Bytes) : Bytes :=
  s.map (fun c => if inRange 'A' 'Z' c then c + 32 else c)

/-- Go `strings.Join(elems, sep)`. -/
def Join : List Bytes → Bytes → Bytes
  | [], _ => []
  | [a], _ => a
  | a :: b :: rest, sep => a ++ sep ++ Join (b :: rest) sep

end strings

/-! ## net/url (imported by headproxy.go as `uri`)

The functions of Go's `net/url` that `headproxy.go` reaches through
`url.Parse`, `(*URL).String` and `(*URL).ResolveReference`.
-/

namespace uri

/-- Go `url.Userinfo`. -/
structure Userinfo where
  username : Bytes
  password : Bytes
  passwordSet : Bool
deriving DecidableEq, Repr

/-- Go `url.URL`. -/
structure URL where
  Scheme : Bytes := []
  Opaque : Bytes := []
  User : Option Userinfo := none
  Host : Bytes := []
  Path : Bytes := []
  RawPath : Bytes := []
  OmitHost : Bool := false
  ForceQuery : Bool := false
  RawQuery : Bytes := []
  Fragment : Bytes := []
  RawFragment : Bytes := []
deriving DecidableEq, Repr

/-- The error values `net/url` produces while parsing. -/
inductive ParseErr where
  /-- Go `errors.New("net/url: invalid control character in URL")` -/
  | invalidControlCharacter
  /-- Go `errors.New("missing protocol scheme")` -/
  | missingProtocolScheme
  /-- Go `errors.New("first path segment in URL cannot contain colon")` -/
  | firstPathSegmentColon
  /-- Go `EscapeError(s)` -/
  | EscapeError (s : Bytes)
  /-- Go `InvalidHostError(s)` -/
  | InvalidHostError (s : Bytes)
  /-- Go `errors.New("missing ']' in host")` -/
  | missingBracket
  /-- Go `fmt.Errorf("invalid port %q after host", colonPort)` -/
  | invalidPort (colonPort : Bytes)
  /-- Go `errors.New("net/url: invalid userinfo")` -/
  | invalidUserinfo
deriving DecidableEq, Repr

/-- Go `url.Error`: the operation, the URL and the cause. -/
structure Error where
  Op : Bytes
  URL : Bytes
  Err : ParseErr
deriving DecidableEq, Repr

/-- The text of a `ParseErr`; `quote` is `strconv.Quote`. -/
def ParseErr.Error (quote : Bytes → Bytes) : ParseErr → Bytes
  | .invalidControlCharacter => str "net/url: invalid control character in URL"
  | .missingProtocolScheme => str "missing protocol scheme"
  | .firstPathSegmentColon => str "first path segment in URL cannot contain colon"
  | .EscapeError s => str "invalid URL escape " ++ quote s
  | .InvalidHostError s => str "invalid character " ++ quote s ++ str " in host name"
  | .missingBracket => str "missing ']' in host"
  | .invalidPort p => str "invalid port " ++ quote p ++ str " after host"
  | .invalidUserinfo => str "net/url: invalid userinfo"

/-- Go `(*url.Error).Error()`: `fmt.Sprintf("%s %q: %s", e.Op, e.URL, e.Err)`. -/
def Error.Error (quote : Bytes → Bytes) (e : Error) : Bytes :=
  e.Op ++ str " " ++ quote e.URL ++ str ": " ++ e.Err.Error quote

/-- Go `url.encoding`. -/
inductive encoding where
  | encodePath
  | encodePathSegment
  | encodeHost
  | encodeZone
  | encodeUserPassword
  | encodeQueryComponent
  | encodeFragment
deriving DecidableEq, Repr

open encoding

/-- Go `url.ishex`. -/
def ishex (c : UInt8) : Bool :=
  inRange '0' '9' c || inRange 'a' 'f' c || inRange 'A' 'F' c

/-- Go `url.unhex`. -/
def unhex (c : UInt8) : UInt8 :=
  if inRange '0' '9' c then c - ch '0'
  else if inRange 'a' 'f' c then c - ch 'a' + 10
  else if inRange 'A' 'F' c then c - ch 'A' + 10
  else 0

/-- Go `url.shouldEscape`: whether byte `c` must be escaped in `mode`. -/
def shouldEscape (c : UInt8) (mode : encoding) : Bool :=
  -- §2.3 Unreserved characters (alphanum)
  if inRange 'a' 'z' c || inRange 'A' 'Z' c || inRange '0' '9' c then false
  else if (mode == encodeHost || mode == encodeZone) &&
      -- ! $ & ' ( ) * + , ; = : [ ] < > "
      [ch '!', ch '$', ch '&', 0x27, ch '(', ch ')', ch '*', ch '+', ch ',', ch ';', ch '=',
        ch ':', ch '[', ch ']', ch '<', ch '>', ch '"'].contains c then false
  else if [ch '-', ch '_', ch '.', ch '~'].contains c then false
  else if [ch '$', ch '&', ch '+', ch ',', ch '/', ch ':', ch ';', ch '=', ch '?', ch '@'].contains c &&
      mode == encodePath then c == ch '?'
  else if [ch '$', ch '&', ch '+', ch ',', ch '/', ch ':', ch ';', ch '=', ch '?', ch '@'].contains c &&
      mode == encodePathSegment then c == ch '/' || c == ch ';' || c == ch ',' || c == ch '?'
  else if [ch '$', ch '&', ch '+', ch ',', ch '/', ch ':', ch ';', ch '=', ch '?', ch '@'].contains c &&
      mode == encodeUserPassword then c == ch '@' || c == ch '/' || c == ch '?' || c == ch ':'
  else if [ch '$', ch '&', ch '+', ch ',', ch '/', ch ':', ch ';', ch '=', ch '?', ch '@'].contains c &&
      mode == encodeQueryComponent then true
  else if [ch '$', ch '&', ch '+', ch ',', ch '/', ch ':', ch ';', ch '=', ch '?', ch '@'].contains c &&
      mode == encodeFragment then false
  else if mode == encodeFragment && [ch '!', ch '(', ch ')', ch '*'].contains c then false
  else true

/-- First loop of Go `url.unescape`: checks that every `%` starts a
well-formed escape allowed in `mode` and, for a host, that no byte needs
escaping; `none` when the check passes. -/
def unescapeCheck (mode : encoding) : Bytes → Option ParseErr
  | [] => none
  | c :: rest =>
    if c = ch '%' then
      match rest with
      | a :: b :: rest2 =>
        if !ishex a || !ishex b then some (.EscapeError [c, a, b])
        else if mode == encodeHost && unhex a < 8 && [c, a, b] != str "%25" then
          some (.EscapeError [c, a, b])
        else if mode == encodeZone && [c, a, b] != str "%25" &&
            (unhex a <<< 4 ||| unhex b) != ch ' ' &&
            shouldEscape (unhex a <<< 4 ||| unhex b) encodeHost then
          some (.EscapeError [c, a, b])
        else unescapeCheck mode rest2
      | _ => some (.EscapeError (c :: rest))
    else if c = ch '+' then unescapeCheck mode rest
    else if (mode == encodeHost || mode == encodeZone) && c < 0x80 && shouldEscape c encodeHost then
      some (.InvalidHostError [c])
    else unescapeCheck mode rest

/-- Second loop of Go `url.unescape`: decodes `%XX` (and `+` in a query
component).  On input without `%` (and without `+` in a query component) it
returns the input, which is the early return of the Go function. -/
def unescapeDecode (mode : encoding) : Bytes → Bytes
  | [] => []
  | c :: rest =>
    if c = ch '%' then
      match rest with
      | a :: b :: rest2 => (unhex a <<< 4 ||| unhex b) :: unescapeDecode mode rest2
      | _ => c :: rest
    else if c = ch '+' then
      (if mode == encodeQueryComponent then ch ' ' else ch '+') :: unescapeDecode mode rest
    else c :: unescapeDecode mode rest

/-- Go `url.unescape(s, mode)`. -/
def unescape (s : Bytes) (mode : encoding) : Except ParseErr Bytes :=
  match unescapeCheck mode s with
  | some e => .error e
  | none => .ok (unescapeDecode mode s)

/-- The digit `upperhex[n]` of Go's `"0123456789ABCDEF"`. -/
def upperhex (n : UInt8) : UInt8 := (str "0123456789ABCDEF").getD n.toNat 0

/-- Go `url.escape(s, mode)`. -/
def escape (s : Bytes) (mode : encoding) : Bytes :=
  s.flatMap (fun c =>
    if c == ch ' ' && mode == encodeQueryComponent then [ch '+']
    else if shouldEscape c mode then [ch '%', upperhex (c >>> 4), upperhex (c &&& 15)]
    else [c])

/-- Go `url.getScheme` from position `i` on (`first` says `i == 0`); `acc`
holds the bytes before `i`, `rawURL` the whole input. -/
def getSchemeFrom (rawURL : Bytes) (first : Bool) (acc : Bytes) :
    Bytes → Except ParseErr (Bytes × Bytes)
  | [] => .ok ([], rawURL)
  | c :: rest =>
    if inRange 'a' 'z' c || inRange 'A' 'Z' c then getSchemeFrom rawURL false (acc ++ [c]) rest
    else if inRange '0' '9' c || c == ch '+' || c == ch '-' || c == ch '.' then
      if first then .ok ([], rawURL) else getSchemeFrom rawURL false (acc ++ [c]) rest
    else if c == ch ':' then
      if first then .error .missingProtocolScheme else .ok (acc, rest)
    else .ok ([], rawURL)

/-- Go `url.getScheme(rawURL)`: `(scheme, path)`. -/
def getScheme (rawURL : Bytes) : Except ParseErr (Bytes × Bytes) :=
  getSchemeFrom rawURL true [] rawURL

/-- Go `url.stringContainsCTLByte`. -/
def stringContainsCTLByte (s : Bytes) : Bool := s.any (fun b => b < ch ' ' || b == 0x7f)

/-- Go `url.validUserinfo`.  The Go loop ranges over runes; a rune outside
ASCII is never accepted, so the test amounts to every byte being accepted. -/
def validUserinfo (s : Bytes) : Bool :=
  s.all (fun r =>
    inRange 'A' 'Z' r || inRange 'a' 'z' r || inRange '0' '9' r ||
    -- - . _ : ~ ! $ & ' ( ) * + , ; = % @
    [ch '-', ch '.', ch '_', ch ':', ch '~', ch '!', ch '$', ch '&', 0x27, ch '(', ch ')',
      ch '*', ch '+', ch ',', ch ';', ch '=', ch '%', ch '@'].contains r)

/-- Go `url.validOptionalPort`. -/
def validOptionalPort (port : Bytes) : Bool :=
  match port with
  | [] => true
  | c :: digits => c == ch ':' && digits.all (fun b => !(b < ch '0' || b > ch '9'))

/-- Go `url.parseHost`. -/
def parseHost (host : Bytes) : Except ParseErr Bytes :=
  if strings.HasPrefix host (str "[") then
    let i := strings.LastIndex host (str "]")
    if i < 0 then .error .missingBracket
    else
      let colonPort := host.drop (i.toNat + 1)
      if !validOptionalPort colonPort then .error (.invalidPort colonPort)
      else
        let zone := strings.Index (host.take i.toNat) (str "%25")
        if 0 ≤ zone then
          match unescape (host.take zone.toNat) encodeHost with
          | .error e => .error e
          | .ok host1 =>
            match unescape ((host.take i.toNat).drop zone.toNat) encodeZone with
            | .error e => .error e
            | .ok host2 =>
              match unescape (host.drop i.toNat) encodeHost with
              | .error e => .error e
              | .ok host3 => .ok (host1 ++ host2 ++ host3)
        else unescape host encodeHost
  else
    let i := strings.LastIndex host (str ":")
    if i ≠ -1 && !validOptionalPort (host.drop i.toNat) then
      .error (.invalidPort (host.drop i.toNat))
    else unescape host encodeHost

/-- Go `url.parseAuthority`: `(user, host)`. -/
def parseAuthority (authority : Bytes) : Except ParseErr (Option Userinfo × Bytes) :=
  let i := strings.LastIndex authority (str "@")
  match (if i < 0 then parseHost authority else parseHost (authority.drop (i.toNat + 1))) with
  | .error e => .error e
  | .ok host =>
    if i < 0 then .ok (none, host)
    else
      let userinfo := authority.take i.toNat
      if !validUserinfo userinfo then .error .invalidUserinfo
      else if !strings.Contains userinfo (str ":") then
        match unescape userinfo encodeUserPassword with
        | .error e => .error e
        | .ok u => .ok (some ⟨u, [], false⟩, host)
      else
        let c := strings.Cut userinfo (str ":")
        match unescape c.1 encodeUserPassword with
        | .error e => .error e
        | .ok username =>
          match unescape c.2.1 encodeUserPassword with
          | .error e => .error e
          | .ok password => .ok (some ⟨username, password, true⟩, host)

/-- Go `(*URL).setPath(p)`. -/
def URL.setPath (u : URL) (p : Bytes) : Except ParseErr URL :=
  match unescape p encodePath with
  | .error e => .error e
  | .ok path =>
    .ok { u with Path := path, RawPath := if p = escape path encodePath then [] else p }

/-- Go `(*URL).setFragment(f)`. -/
def URL.setFragment (u : URL) (f : Bytes) : Except ParseErr URL :=
  match unescape f encodeFragment with
  | .error e => .error e
  | .ok frag =>
    .ok { u with Fragment := frag, RawFragment := if f = escape frag encodeFragment then [] else f }

/-- Go `url.validEncoded`. -/
def validEncoded (s : Bytes) (mode : encoding) : Bool :=
  s.all (fun c =>
    -- ! $ & ' ( ) * + , ; = : @ [ ] %
    [ch '!', ch '$', ch '&', 0x27, ch '(', ch ')', ch '*', ch '+', ch ',', ch ';', ch '=',
      ch ':', ch '@', ch '[', ch ']', ch '%'].contains c || !shouldEscape c mode)

/-- Go `(*URL).EscapedPath()`. -/
def URL.EscapedPath (u : URL) : Bytes :=
  if u.RawPath ≠ [] && validEncoded u.RawPath encodePath &&
      unescape u.RawPath encodePath == .ok u.Path then u.RawPath
  else if u.Path = str "*" then str "*"
  else escape u.Path encodePath

/-- Go `(*URL).EscapedFragment()`. -/
def URL.EscapedFragment (u : URL) : Bytes :=
  if u.RawFragment ≠ [] && validEncoded u.RawFragment encodeFragment &&
      unescape u.RawFragment encodeFragment == .ok u.Fragment then u.RawFragment
  else escape u.Fragment encodeFragment

/-- Go `(*Userinfo).String()`. -/
def Userinfo.String (u : Userinfo) : Bytes :=
  escape u.username encodeUserPassword ++
    (if u.passwordSet then str ":" ++ escape u.password encodeUserPassword else [])

end uri

namespace uri

open encoding

/-- Go `url.parse(rawURL, viaRequest)` with `viaRequest = false`, the only
way `url.Parse` calls it. -/
def parse (rawURL : Bytes) : Except ParseErr URL :=
  if stringContainsCTLByte rawURL then .error .invalidControlCharacter
  else if rawURL = str "*" then .ok { Path := str "*" }
  else
    match getScheme rawURL with
    | .error e => .error e
    | .ok (scheme, rest0) =>
      let Scheme := strings.ToLower scheme
      let ForceQuery := strings.HasSuffix rest0 (str "?") && strings.Count rest0 (str "?") == 1
      let rest := if ForceQuery then rest0.dropLast else (strings.Cut rest0 (str "?")).1
      let RawQuery := if ForceQuery then [] else (strings.Cut rest0 (str "?")).2.1
      let url : URL := { Scheme := Scheme, ForceQuery := ForceQuery, RawQuery := RawQuery }
      if !strings.HasPrefix rest (str "/") && Scheme ≠ [] then
        -- We consider rootless paths per RFC 3986 as opaque.
        .ok { url with Opaque := rest }
      else if !strings.HasPrefix rest (str "/") &&
          strings.Contains (strings.Cut rest (str "/")).1 (str ":") then
        -- First path segment has colon. Not allowed in relative URL.
        .error .firstPathSegmentColon
      else if (Scheme ≠ [] || !strings.HasPrefix rest (str "///")) &&
          strings.HasPrefix rest (str "//") then
        let authority0 := rest.drop 2
        let i := strings.Index authority0 (str "/")
        let authority := if 0 ≤ i then authority0.take i.toNat else authority0
        let rest2 := if 0 ≤ i then authority0.drop i.toNat else []
        match parseAuthority authority with
        | .error e => .error e
        | .ok (user, host) => URL.setPath { url with User := user, Host := host } rest2
      else if Scheme ≠ [] && strings.HasPrefix rest (str "/") then
        -- OmitHost is set to true when rawURL has an empty host (authority).
        URL.setPath { url with OmitHost := true } rest
      else URL.setPath url rest

/-- Go `url.Parse(rawURL)`. -/
def Parse (rawURL : Bytes) : Except Error URL :=
  -- Cut off #frag
  let c := strings.Cut rawURL (str "#")
  match parse c.1 with
  | .error err => .error ⟨str "parse", c.1, err⟩
  | .ok url =>
    if c.2.1 = [] then .ok url
    else
      match url.setFragment c.2.1 with
      | .error err => .error ⟨str "parse", rawURL, err⟩
      | .ok url2 => .ok url2

/-- Go `(*URL).String()`. -/
def URL.String (u : URL) : Bytes :=
  let scheme := if u.Scheme ≠ [] then u.Scheme ++ str ":" else []
  let body :=
    if u.Opaque ≠ [] then scheme ++ u.Opaque
    else
      let authority :=
        if u.Scheme ≠ [] || u.Host ≠ [] || u.User.isSome then
          if u.OmitHost && u.Host = [] && u.User.isNone then []
          else
            (if u.Host ≠ [] || u.Path ≠ [] || u.User.isSome then str "//" else []) ++
            (match u.User with
             | some ui => ui.String ++ str "@"
             | none => []) ++
            (if u.Host ≠ [] then escape u.Host encodeHost else [])
        else []
      let path := u.EscapedPath
      let buf := scheme ++ authority ++
        (if path ≠ [] && path.head? ≠ some (ch '/') && u.Host ≠ [] then str "/" else [])
      -- RFC 3986 §4.2: a first segment with a colon gets a leading "./"
      let buf2 := buf ++
        (if buf = [] && strings.Contains (strings.Cut path (str "/")).1 (str ":") then str "./"
         else [])
      buf2 ++ path
  body ++
    (if u.ForceQuery || u.RawQuery ≠ [] then str "?" ++ u.RawQuery else []) ++
    (if u.Fragment ≠ [] then str "#" ++ u.EscapedFragment else [])

/-- The successive values of `elem` in the loop of `resolvePath`:
`elem, remaining, found = strings.Cut(remaining, "/")` repeated while `found`;
`cur` collects the bytes of the element being read. -/
def cutElems (cur : Bytes) : Bytes → List Bytes
  | [] => [cur]
  | c :: rest => if c = ch '/' then cur :: cutElems [] rest else cutElems (cur ++ [c]) rest

/-- One turn of the loop of Go `url.resolvePath`, on the state `(dst, first)`. -/
def resolveStep (st : Bytes × Bool) (elem : Bytes) : Bytes × Bool :=
  if elem = str "." then (st.1, false)
  else if elem = str ".." then
    -- Ignore the leading '/' we already wrote.
    let s := st.1.drop 1
    let index := strings.LastIndexByte s (ch '/')
    if index = -1 then (str "/", true) else (str "/" ++ s.take index.toNat, st.2)
  else ((if !st.2 then st.1 ++ str "/" else st.1) ++ elem, false)

/-- Go `url.resolvePath(base, ref)`: resolves `ref` against `base` and removes
dot segments. -/
def resolvePath (base ref : Bytes) : Bytes :=
  let full :=
    if ref = [] then base
    else if ref.head? ≠ some (ch '/') then
      base.take ((strings.LastIndex base (str "/")).toNat + 1) ++ ref
    else ref
  if full = [] then []
  else
    let elems := cutElems [] full
    -- We want to return a leading '/', so write it now.
    let dst := (elems.foldl resolveStep (str "/", true)).1
    let last := elems.getLastD []
    let r := if last = str "." || last = str ".." then dst ++ str "/" else dst
    -- We wrote an initial '/', but we don't want two.
    if 1 < r.length && (r.drop 1).head? = some (ch '/') then r.drop 1 else r

/-- The result of `(*URL).setPath` when its error is ignored, as
`ResolveReference` does: on error the URL is left as it was. -/
def URL.setPathIgnoreErr (u : URL) (p : Bytes) : URL :=
  match u.setPath p with
  | .ok v => v
  | .error _ => u

/-- Go `(*URL).ResolveReference(ref)`. -/
def URL.ResolveReference (u ref : URL) : URL :=
  let url : URL := if ref.Scheme = [] then { ref with Scheme := u.Scheme } else ref
  if ref.Scheme ≠ [] || ref.Host ≠ [] || ref.User.isSome then
    -- The "absoluteURI" or "net_path" cases.
    url.setPathIgnoreErr (resolvePath ref.EscapedPath [])
  else if ref.Opaque ≠ [] then
    { url with User := none, Host := [], Path := [] }
  else
    let url2 : URL :=
      if ref.Path = [] && !ref.ForceQuery && ref.RawQuery = [] then
        if ref.Fragment = [] then
          { url with RawQuery := u.RawQuery, Fragment := u.Fragment, RawFragment := u.RawFragment }
        else { url with RawQuery := u.RawQuery }
      else url
    if ref.Path = [] && u.Opaque ≠ [] then
      { url2 with Opaque := u.Opaque, User := none, Host := [], Path := [] }
    else
      -- The "abs_path" or "rel_path" cases.
      URL.setPathIgnoreErr { url2 with Host := u.Host, User := u.User }
        (resolvePath u.EscapedPath ref.EscapedPath)

end uri

/-! ## net/textproto and net/http -/

namespace textproto

/-- Go `textproto.validHeaderFieldByte`: `c` is a `tchar` of RFC 7230, that is
one of ``! # $ % & ' * + - . ^ _ ` | ~``, a digit or a letter. -/
def validHeaderFieldByte (c : UInt8) : Bool :=
  inRange 'a' 'z' c || inRange 'A' 'Z' c || inRange '0' '9' c ||
  [ch '!', ch '#', ch '$', ch '%', ch '&', 0x27, ch '*', ch '+', ch '-', ch '.', ch '^', ch '_',
    0x60, ch '|', ch '~'].contains c

/-- The canonicalising loop of Go `textproto.canonicalMIMEHeaderKey`: first
letter upper case and upper case after each dash, lower case elsewhere. -/
def canonicalCase (upper : Bool) : Bytes → Bytes
  | [] => []
  | c :: rest =>
    let c2 :=
      if upper && inRange 'a' 'z' c then c - 32
      else if !upper && inRange 'A' 'Z' c then c + 32
      else c
    c2 :: canonicalCase (c2 == ch '-') rest

/-- Go `textproto.CanonicalMIMEHeaderKey(s)`: a key with a byte that is not
valid in a header field name (a space included) is returned unchanged, any
other key is put in canonical case. -/
def CanonicalMIMEHeaderKey (s : Bytes) : Bytes :=
  if s.all validHeaderFieldByte then canonicalCase true s else s

end textproto

namespace http

/-- Go `http.Header`, a `map[string][]string`, as an association list; the
order of the entries stands for the (unspecified) iteration order of the map. -/
abbrev Header := List (Bytes × List Bytes)

/-- Go map read `h[key]`: the values stored under `key`, if any. -/
def Header.lookup (h : Header) (key : Bytes) : Option (List Bytes) :=
  match h with
  | [] => none
  | (k, v) :: rest => if k = key then some v else Header.lookup rest key

/-- Go map write `h[key] = values`. -/
def Header.assign (h : Header) (key : Bytes) (values : List Bytes) : Header :=
  match h with
  | [] => [(key, values)]
  | (k, v) :: rest =>
    if k = key then (key, values) :: rest else (k, v) :: Header.assign rest key values

/-- Go `Header.Set(key, value)`: sets the entries of the canonical form of
`key` to the single element `value`, replacing any existing values. -/
def Header.Set (h : Header) (key value : Bytes) : Header :=
  Header.assign h (textproto.CanonicalMIMEHeaderKey key) [value]

/-- Go `Header.Values(key)`: the values stored under the canonical form of
`key`, `h[CanonicalMIMEHeaderKey(key)]`; `none` when the map has no such
entry. -/
def Header.Values (h : Header) (key : Bytes) : Option (List Bytes) :=
  Header.lookup h (textproto.CanonicalMIMEHeaderKey key)

/-- Go `http.MethodGet`. -/
def MethodGet : Bytes := str "GET"

/-- Go `http.Request`, as far as this package touches it. -/
structure Request where
  Method : Bytes
  URL : Bytes
  Header : Header
deriving DecidableEq, Repr

/-- Go `http.Response`, as far as this package touches it: the header map,
what `io.ReadAll(resp.Body)` returns and what `resp.Body.Close()` returns. -/
structure Response where
  Header : Header
  ReadAll : Except GoError Bytes
  Close : Option GoError

end http

/-! ## golang.org/x/net/html and goquery -/

namespace html

/-- Go `html.NodeType`. -/
inductive NodeType where
  | ErrorNode
  | TextNode
  | DocumentNode
  | ElementNode
  | CommentNode
  | DoctypeNode
  | RawNode
deriving DecidableEq, Repr

/-- Go `html.Attribute`. -/
structure Attribute where
  Namespace : Bytes := []
  Key : Bytes
  Val : Bytes
deriving DecidableEq, Repr

/-- Go `html.Node`: the sibling and child pointers are replaced by the list
of children. -/
inductive Node where
  | mk (Typ : NodeType) (Data : Bytes) (Namespace : Bytes) (Attr : List Attribute)
      (Children : List Node)

/-- The `Type` field (`Type` is reserved in Lean). -/
def Node.Typ : Node → NodeType
  | .mk t _ _ _ _ => t

/-- The `Data` field (the tag name of an element). -/
def Node.Data : Node → Bytes
  | .mk _ d _ _ _ => d

/-- The `Attr` field. -/
def Node.Attr : Node → List Attribute
  | .mk _ _ _ a _ => a

/-- The children, first to last. -/
def Node.Children : Node → List Node
  | .mk _ _ _ _ c => c

/-- The node with its `Attr` field replaced. -/
def Node.withAttr : Node → List Attribute → Node
  | .mk t d ns _ c, a => .mk t d ns a c

end html

/-- The world outside the package: library functions that are not modelled
and the remote host. -/
structure Env where
  /-- Go `strconv.Quote`. -/
  Quote : Bytes → Bytes
  /-- The error of `http.NewRequest(method, url, nil)`, if it returns one. -/
  NewRequestErr : Bytes → Bytes → Option GoError
  /-- Go `http.DefaultClient.Do(req)`: what the remote host (or the transport)
  answers to the request. -/
  Do : http.Request → Except GoError http.Response
  /-- Go `goquery.NewDocumentFromReader` on a reader of the given bytes: the
  root node of the parsed document. -/
  NewDocumentFromReader : Bytes → Except GoError html.Node
  /-- Go `html.Render` of one node into a buffer. -/
  Render : html.Node → Except GoError Bytes
  /-- What `template.JSEscape` writes for the rune that starts at a byte
  `>= utf8.RuneSelf` (the rune's bytes if `unicode.IsPrint`, else its
  `\uXXXX` form), and the size of that rune, from `utf8.DecodeRune`. -/
  JSEscapeRune : Bytes → Bytes × Nat

/-- What the package changes outside its return values. -/
structure State where
  /-- The header map `w.Header()` of the outbound response. -/
  wHeader : http.Header
  /-- The requests handed to the HTTP client, oldest first. -/
  requests : List http.Request
  /-- What was printed to standard output. -/
  stdout : Bytes
deriving DecidableEq, Repr

namespace http

/-- Go `http.NewRequest(method, url, nil)`: a request with an empty header
map (`make(Header)`), or the error of validating the method and the URL. -/
def NewRequest (env : Env) (method url : Bytes) : Except GoError Request :=
  match env.NewRequestErr method url with
  | some e => .error e
  | none => .ok { Method := method, URL := url, Header := [] }

/-- Go `http.Get(url)`: `NewRequest("GET", url, nil)` followed by
`DefaultClient.Do(req)`. -/
def Get (env : Env) (s : State) (url : Bytes) : Except GoError Response × State :=
  match NewRequest env (str "GET") url with
  | .error e => (.error e, s)
  | .ok req => (env.Do req, { s with requests := s.requests ++ [req] })

end http

namespace goquery

open html

/-- Go `goquery.getAttributePtr` followed by reading `Val`
(`getAttributeValue`): the value of the first attribute named `attrName`. -/
def getAttributeValue (attrName : Bytes) : List Attribute → Option Bytes
  | [] => none
  | a :: rest => if a.Key = attrName then some a.Val else getAttributeValue attrName rest

/-- Go `(*Selection).Attr(attrName)` on the selection of one node. -/
def Attr (n : Node) (attrName : Bytes) : Option Bytes := getAttributeValue attrName n.Attr

/-- The attribute list after `(*Selection).SetAttr`: the first attribute named
`attrName` gets the value `val`; without one, a new attribute is appended. -/
def setAttrList (attrName val : Bytes) : List Attribute → List Attribute
  | [] => [{ Key := attrName, Val := val }]
  | a :: rest =>
    if a.Key = attrName then { a with Val := val } :: rest
    else a :: setAttrList attrName val rest

/-- Go `(*Selection).SetAttr(attrName, val)` on the selection of one node. -/
def SetAttr (n : Node) (attrName val : Bytes) : Node :=
  n.withAttr (setAttrList attrName val n.Attr)

/-- The cascadia tag selector compiled from a tag name such as `"link"`. -/
def tagSelector (tag : Bytes) (n : Node) : Bool :=
  n.Typ == NodeType.ElementNode && n.Data == tag

/-- Go cascadia `matchAllInto`: the node itself if it matches, then the
matches among its descendants, in document order. -/
def matchAll (m : Node → Bool) : Node → List Node
  | .mk t d ns a kids =>
    (if m (.mk t d ns a kids) then [.mk t d ns a kids] else []) ++ matchAllList m kids
where
  /-- The matches of `matchAll` in a list of siblings. -/
  matchAllList (m : Node → Bool) : List Node → List Node
    | [] => []
    | c :: rest => matchAll m c ++ matchAllList m rest

/-- Go `goquery.findWithMatcher` on one node: the matches within the element
children of `root` (Find selects only within descendants). -/
def findIn (m : Node → Bool) (root : Node) : List Node :=
  root.Children.flatMap (fun c => if c.Typ = NodeType.ElementNode then matchAll m c else [])

/-- Go `doc.Find(tag)`: the selection of the elements named `tag` below the
document root. -/
def Find (root : Node) (tag : Bytes) : List Node := findIn (tagSelector tag) root

/-- The tree after a callback that changes only the attributes of the node it
is given has run on every node `matchAll` selects. -/
def eachAll (m : Node → Bool) (f : Node → List Attribute) : Node → Node
  | .mk t d ns a kids =>
    .mk t d ns (if m (.mk t d ns a kids) then f (.mk t d ns a kids) else a) (eachAllList m f kids)
where
  /-- The siblings after `eachAll`. -/
  eachAllList (m : Node → Bool) (f : Node → List Attribute) : List Node → List Node
    | [] => []
    | c :: rest => eachAll m f c :: eachAllList m f rest

/-- Go `doc.Find(tag).Each(f)` for a callback `f` that changes only the
attributes of its node: the document tree afterwards. -/
def FindEach (root : Node) (tag : Bytes) (f : Node → List Attribute) : Node :=
  match root with
  | .mk t d ns a kids =>
    .mk t d ns a
      (kids.map (fun c => if c.Typ = NodeType.ElementNode then eachAll (tagSelector tag) f c else c))

/-- Go `(*Selection).Html()`: the rendering of the children of the first node
of the selection, the empty string for an empty selection, or the first
error of `html.Render`. -/
def Html (env : Env) (sel : List Node) : Except GoError Bytes :=
  match sel with
  | [] => .ok []
  | n :: _ =>
    n.Children.foldl
      (fun acc c =>
        match acc with
        | .error e => .error e
        | .ok buf =>
          match env.Render c with
          | .error e => .error e
          | .ok out => .ok (buf ++ out))
      (.ok [])

end goquery

/-! ## text/template: JSEscapeString -/

namespace template

/-- Go `template.jsIsSpecial` on a byte. -/
def jsIsSpecial (c : UInt8) : Bool :=
  -- \ ' " < > & =
  [ch '\\', 0x27, ch '"', ch '<', ch '>', ch '&', ch '='].contains c || c < ch ' ' || 0x80 ≤ c

/-- What Go `template.JSEscape` writes for a special byte below
`utf8.RuneSelf`: quotes, slashes and angle brackets get quoted, control
characters are written as `\u00XX`. -/
def jsEscapeASCII (c : UInt8) : Bytes :=
  if c = ch '\\' then str "\\\\"
  else if c = 0x27 then str "\\" ++ [0x27]
  else if c = ch '"' then str "\\\""
  else if c = ch '<' then str "\\u003C"
  else if c = ch '>' then str "\\u003E"
  else if c = ch '&' then str "\\u0026"
  else if c = ch '=' then str "\\u003D"
  else str "\\u00" ++ [uri.upperhex (c >>> 4), uri.upperhex (c &&& 0x0f)]

/-- The loop of Go `template.JSEscape`; `skip` counts the bytes still to pass
over of a rune that has been written. -/
def JSEscapeFrom (env : Env) : Nat → Bytes → Bytes
  | _, [] => []
  | skip + 1, _ :: rest => JSEscapeFrom env skip rest
  | 0, c :: rest =>
    if !jsIsSpecial c then c :: JSEscapeFrom env 0 rest
    else if c < 0x80 then jsEscapeASCII c ++ JSEscapeFrom env 0 rest
    else (env.JSEscapeRune (c :: rest)).1 ++ JSEscapeFrom env ((env.JSEscapeRune (c :: rest)).2 - 1) rest

/-- Go `template.JSEscapeString(s)`: the escaped JavaScript equivalent of `s`. -/
def JSEscapeString (env : Env) (s : Bytes) : Bytes := JSEscapeFrom env 0 s

end template

/-! ## headproxy.go -/

/-- The text `handleErr` writes before the escaped message. -/
def noticeHead : Bytes :=
  str "<script>window.addEventListener(\"DOMContentLoaded\", function() \x7b\n" ++
  str "var div = document.createElement(\"div\")\n" ++
  str "div.style.background = \"rgb(220 38 38)\"\n" ++
  str "div.style.color = \"rgb(254 226 226)\"\n" ++
  str "div.style.padding = \"1rem\"\n" ++
  str "div.style.margin = \"1rem\"\n" ++
  str "div.style.borderRadius = \"8px\"\n" ++
  str "div.style.fontFamily = \"system-ui, -apple-system, BlinkMacSystemFont, 'Segoe UI', Roboto, Oxygen, Ubuntu, Cantarell, 'Open Sans', 'Helvetica Neue', sans-serif\"\n" ++
  str "div.style.fontSize = \"1rem\"\n" ++
  str "var span = document.createElement(\"span\")\n" ++
  str "span.style.fontSize = \".875rem\"\n" ++
  str "span.style.textTransform = \"uppercase\"\n" ++
  str "span.style.fontWeight = \"700\"\n" ++
  str "span.style.marginRight = \".5rem\"\n" ++
  str "span.append(\"Error:\")\n" ++
  str "div.append(span)\n" ++
  str "div.append(\""

/-- The text `handleErr` writes after the escaped message. -/
def noticeTail : Bytes :=
  str "\")\n" ++
  str "document.body.prepend(div)\n" ++
  str "\x7d)\n" ++
  str "</script>\n"

/-- Go `handleErr` (headproxy.go): prints the message and returns the script
that shows it in the page. -/
def handleErr (env : Env) (s : State) (err : GoError) : Bytes × State :=
  let msg := err.Error
  (noticeHead ++ template.JSEscapeString env msg ++ noticeTail,
    { s with stdout := s.stdout ++ str "[error] " ++ msg ++ str "\n" })

/-- Lines 75 to 82 of `fetch`: the URL is parsed, an empty scheme becomes
`"https"`, and the URL is printed again. -/
def fetchResolve (url : Bytes) : Except uri.Error uri.URL :=
  match uri.Parse url with
  | .error err => .error err
  | .ok parsed => .ok (if parsed.Scheme = [] then { parsed with Scheme := str "https" } else parsed)

/-- The loop of `fetch` that replaces the outgoing response headers:
`w.Header().Set(k, strings.Join(v, ","))` for every entry of `resp.Header`. -/
def copyHeaders (wHeader respHeader : http.Header) : http.Header :=
  respHeader.foldl (fun h kv => http.Header.Set h kv.1 (strings.Join kv.2 (str ","))) wHeader

/-- Go `fetch` (headproxy.go): gets the body of the given URL; the generated
absolute URL is the first return.  `r` is the inbound request and the state
holds `w.Header()`.  When `resp.Body.Close()` fails the Go function returns
its error next to the URL and the body; the caller looks at the error only. -/
def fetch (env : Env) (s : State) (r : http.Request) (url : Bytes) : Ret (Bytes × Bytes) × State :=
  match fetchResolve url with
  | .error err =>
    (.fail ⟨str "headproxy: failed to parse URL " ++ url ++ str ": " ++ err.Error env.Quote⟩, s)
  | .ok parsed =>
    let absoluteURL := parsed.String
    match http.NewRequest env http.MethodGet absoluteURL with
    | .error err =>
      (.fail ⟨str "headproxy: failed to create http request to URL " ++ parsed.String ++ str ": " ++
        err.Error⟩, s)
    | .ok req0 =>
      -- Replace the request header.
      let _req : http.Request := { req0 with Header := r.Header }
      match http.Get env s absoluteURL with
      | (.error err, s1) =>
        (.fail ⟨str "headproxy: failed to GET URL " ++ parsed.String ++ str ": " ++ err.Error⟩, s1)
      | (.ok resp, s1) =>
        match resp.ReadAll with
        | .error err =>
          (.fail ⟨str "headproxy: failed to read body from URL " ++ parsed.String ++ str ": " ++
            err.Error⟩, s1)
        | .ok body =>
          -- Replace the outgoing response headers.
          let s2 := { s1 with wHeader := copyHeaders s1.wHeader resp.Header }
          match resp.Close with
          | some err => (.fail err, s2)
          | none => (.ok (absoluteURL, body), s2)

/-- The callback `replaceRelativePaths` runs on each `link` element: the
attribute list of the element afterwards. -/
def rewriteHref (parsedBase : uri.URL) (n : html.Node) : List html.Attribute :=
  -- For each item found, get the href.
  match goquery.Attr n (str "href") with
  | some href =>
    match uri.Parse href with
    | .error _ =>
      -- Ignore invalid URLs.
      n.Attr
    | .ok parsedRefrence =>
      let absoluteURL := parsedBase.ResolveReference parsedRefrence
      (goquery.SetAttr n (str "href") absoluteURL.String).Attr
  | none => n.Attr

/-- Go `replaceRelativePaths` (headproxy.go): replaces relative paths in the
contents of the `<head>` with absolute paths relative to the given URL. -/
def replaceRelativePaths (env : Env) (url : Bytes) (head : Bytes) : Ret Bytes :=
  match env.NewDocumentFromReader head with
  | .error err =>
    .fail ⟨str "headproxy: failed to create new document from <head> contents from URL " ++ url ++
      str ": " ++ err.Error⟩
  | .ok doc =>
    match uri.Parse url with
    | .error err =>
      .fail ⟨str "headproxy: failed to parse URL " ++ url ++ str ": " ++ err.Error env.Quote⟩
    | .ok parsedBase =>
      let doc2 := goquery.FindEach doc (str "link") (rewriteHref parsedBase)
      match goquery.Html env (goquery.Find doc2 (str "head")) with
      | .error err => .fail err
      | .ok out => .ok out

/-- How a call of `ExtractContent` ends: it returns a `template.HTML`, or it
does not return because of a run-time panic. -/
inductive Outcome where
  | returned (html : Bytes)
  | panicked
deriving DecidableEq, Repr

/-- Go `ExtractContent` (headproxy.go): extracts the `<head>` content from the
given URL. -/
def ExtractContent (env : Env) (s : State) (r : http.Request) (url : Bytes) : Outcome × State :=
  match fetch env s r url with
  | (.panic, s1) => (.panicked, s1)
  | (.fail err, s1) => (.returned (handleErr env s1 err).1, (handleErr env s1 err).2)
  | (.ok (abs, body), s1) =>
    match extract body with
    | .panic => (.panicked, s1)
    | .fail err => (.returned (handleErr env s1 err).1, (handleErr env s1 err).2)
    | .ok content =>
      match replaceRelativePaths env abs content with
      | .panic => (.panicked, s1)
      | .fail err => (.returned (handleErr env s1 err).1, (handleErr env s1 err).2)
      | .ok replaced => (.returned replaced, s1)

/-! ## Predicates used to state the properties -/

/-- The slice `sep` occurs in `s` at index `i` and at no smaller index: `i` is
the index of the first occurrence of `sep` in `s`. -/
def IsFirstIndex (sep s : Bytes) (i : Nat) : Prop :=
  sep <+: s.drop i ∧ ∀ j, j < i → ¬ sep <+: s.drop j

/-- The payload `s` contains the marker `sep`. -/
def ContainsBytes (s sep : Bytes) : Prop := sep <:+: s

/-- The byte is an ASCII letter, the first case of `getScheme`. -/
def isSchemeLetter (c : UInt8) : Bool := inRange 'a' 'z' c || inRange 'A' 'Z' c

/-- The byte is a digit or one of `+ - .`, the second case of `getScheme`. -/
def isSchemeOther (c : UInt8) : Bool :=
  inRange '0' '9' c || c == ch '+' || c == ch '-' || c == ch '.'

/-- The bytes form a URL scheme: a letter followed by letters, digits and
`+ - .` (RFC 3986 §3.1). -/
def ValidScheme (s : Bytes) : Prop :=
  ∃ c t, s = c :: t ∧ isSchemeLetter c = true ∧
    ∀ b ∈ t, isSchemeLetter b = true ∨ isSchemeOther b = true

/-! ## Concrete worlds used to evaluate the package -/

/-- A stand-in for `html.Render` on an element without children, such as
`link`: the start tag with its attributes. -/
def renderStartTag (n : html.Node) : Bytes :=
  str "<" ++ n.Data ++
    n.Attr.flatMap (fun a => str " " ++ a.Key ++ str "=\"" ++ a.Val ++ str "\"") ++ str ">"

/-- A world in which every request is answered with the header `respHeader`
and the body `payload`, and the document parser returns `doc`. -/
def worldServing (respHeader : http.Header) (payload : Bytes) (doc : html.Node) : Env where
  Quote := fun s => str "\"" ++ s ++ str "\""
  NewRequestErr := fun _ _ => none
  Do := fun _ => .ok { Header := respHeader, ReadAll := .ok payload, Close := none }
  NewDocumentFromReader := fun _ => .ok doc
  Render := fun n => .ok (renderStartTag n)
  JSEscapeRune := fun b => (b.take 1, 1)

/-- An empty document node. -/
def emptyDocument : html.Node := .mk .DocumentNode [] [] [] []

/-- The state before a call: an outbound response without headers, no request
sent, nothing printed. -/
def initialState : State := { wHeader := [], requests := [], stdout := [] }

/-- An inbound request carrying the header `Accept: text/html`. -/
def inboundRequest : http.Request :=
  { Method := str "GET", URL := str "/", Header := [(str "Accept", [str "text/html"])] }

/-- A remote response header map with a two-valued and a one-valued entry. -/
def remoteHeader : http.Header :=
  [(str "Content-Type", [str "text/html", str "charset=utf-8"]),
   (str "X-Frame-Options", [str "DENY"])]

/-- A state whose outbound response already has two values for
`Content-Type`. -/
def stateWithHeader : State :=
  { wHeader := [(str "Content-Type", [str "application/json", str "x"])],
    requests := [], stdout := [] }

theorem containsBytes_iff_drop (s sep : Bytes) :
    ContainsBytes s sep ↔ ∃ j, sep <+: s.drop j := by
  constructor
  · rintro ⟨a, b, h⟩
    refine ⟨a.length, ?_⟩
    rw [← h]
    simp
  · rintro ⟨j, hj⟩
    exact hj.isInfix.trans (List.drop_suffix j s).isInfix

theorem indexFrom_spec (sep : Bytes) (s : Bytes) :
    ∀ k : Nat, (bytes.IndexFrom sep k s = -1 ∧ ∀ j, ¬ sep <+: s.drop j) ∨
      ∃ i : Nat, bytes.IndexFrom sep k s = ((k + i : Nat) : Int) ∧ IsFirstIndex sep s i := by
  induction s with
  | nil =>
    intro k
    by_cases hs : sep = []
    · right
      refine ⟨0, ?_, ?_, ?_⟩
      · simp [bytes.IndexFrom, hs]
      · simp [hs]
      · intro j hj; omega
    · left
      refine ⟨?_, ?_⟩
      · simp [bytes.IndexFrom, hs]
      · intro j hj
        simp at hj
        exact hs hj
  | cons c rest ih =>
    intro k
    by_cases hp : sep.isPrefixOf (c :: rest) = true
    · right
      refine ⟨0, ?_, ?_, ?_⟩
      · simp [bytes.IndexFrom, hp]
      · simpa using List.isPrefixOf_iff_prefix.mp hp
      · intro j hj; omega
    · have hnp : ¬ sep <+: c :: rest := fun h => hp (List.isPrefixOf_iff_prefix.mpr h)
      rcases ih (k + 1) with ⟨h1, h2⟩ | ⟨i, h1, h2, h3⟩
      · left
        refine ⟨?_, ?_⟩
        · simp only [bytes.IndexFrom, hp]
          simpa using h1
        · intro j
          cases j with
          | zero => simpa using hnp
          | succ j => simpa using h2 j
      · right
        refine ⟨i + 1, ?_, ?_, ?_⟩
        · simp only [bytes.IndexFrom, hp]
          rw [h1]
          simp only [Bool.false_eq_true, if_false]
          congr 1
          omega
        · simpa using h2
        · intro j hj
          cases j with
          | zero => simpa using hnp
          | succ j =>
            have := h3 j (by omega)
            simpa using this

theorem isFirstIndex_unique {sep s : Bytes} {i j : Nat}
    (hi : IsFirstIndex sep s i) (hj : IsFirstIndex sep s j) : i = j := by
  rcases Nat.lt_trichotomy i j with h | h | h
  · exact absurd hi.1 (hj.2 i h)
  · exact h
  · exact absurd hj.1 (hi.2 j h)

theorem index_of_isFirstIndex {sep s : Bytes} {i : Nat} (h : IsFirstIndex sep s i) :
    bytes.Index s sep = (i : Int) := by
  rcases indexFrom_spec sep s 0 with ⟨_, h2⟩ | ⟨i2, h1, h2⟩
  · exact absurd h.1 (h2 i)
  · have := isFirstIndex_unique h h2
    subst this
    simpa [bytes.Index] using h1

theorem index_of_not_contains {sep s : Bytes} (h : ¬ ContainsBytes s sep) :
    bytes.Index s sep = -1 := by
  rcases indexFrom_spec sep s 0 with ⟨h1, _⟩ | ⟨i, _, h2⟩
  · exact h1
  · exact absurd ((containsBytes_iff_drop s sep).mpr ⟨i, h2.1⟩) h

theorem isFirstIndex_of_contains {sep s : Bytes} (h : ContainsBytes s sep) :
    ∃ i : Nat, IsFirstIndex sep s i := by
  rcases indexFrom_spec sep s 0 with ⟨_, h2⟩ | ⟨i, _, h2⟩
  · obtain ⟨j, hj⟩ := (containsBytes_iff_drop s sep).mp h
    exact absurd hj (h2 j)
  · exact ⟨i, h2⟩

theorem isFirstIndex_bound {sep s : Bytes} {i : Nat} (h : IsFirstIndex sep s i) :
    i + sep.length ≤ s.length ∨ (sep = [] ∧ s.length ≤ i) := by
  have hl := h.1.length_le
  simp at hl
  by_cases hs : sep = []
  · by_cases hi : i ≤ s.length
    · left; simp [hs, hi]
    · right; exact ⟨hs, by omega⟩
  · left
    have : 0 < sep.length := List.length_pos.mpr hs
    omega

/-! ## extract -/

theorem str_openHead : str "<head>" = [60, 104, 101, 97, 100, 62] := by decide

theorem str_closeHead : str "</head>" = [60, 47, 104, 101, 97, 100, 62] := by decide

theorem extract_eq_slice {body : Bytes} {i j : Nat}
    (hi : IsFirstIndex (str "<head>") body i) (hj : IsFirstIndex (str "</head>") body j) :
    extract body =
      match sliceExpr body ((i : Int) + 6) (j : Int) with
      | some content => .ok content
      | none => .panic := by
  have h1 := index_of_isFirstIndex hi
  have h2 := index_of_isFirstIndex hj
  unfold extract
  simp only [h1, h2]
  have e1 : ¬ ((i : Int) = -1) := by omega
  have e2 : ¬ ((j : Int) = -1) := by omega
  simp only [e1, e2, if_false]

theorem markers_apart {body : Bytes} {i j : Nat}
    (hi : str "<head>" <+: body.drop i) (hj : str "</head>" <+: body.drop j) (hij : i < j) :
    i + 6 ≤ j := by
  by_contra hlt
  obtain ⟨t, ht⟩ := hi
  obtain ⟨t2, ht2⟩ := hj
  obtain ⟨d, hd⟩ : ∃ d, j = i + d := ⟨j - i, by omega⟩
  have hdrop : body.drop j = (str "<head>" ++ t).drop d := by
    rw [ht, hd, List.drop_drop]
  rw [← ht2, str_openHead, str_closeHead] at hdrop
  have hd5 : d = 1 ∨ d = 2 ∨ d = 3 ∨ d = 4 ∨ d = 5 := by omega
  rcases hd5 with h | h | h | h | h <;> subst h <;> simp at hdrop

theorem marker_close_bound {body : Bytes} {j : Nat} (hj : str "</head>" <+: body.drop j) :
    j + 7 ≤ body.length := by
  have hl := hj.length_le
  rw [str_closeHead] at hl
  simp at hl
  omega

theorem markers_distinct_index {body : Bytes} {i : Nat}
    (hi : str "<head>" <+: body.drop i) (hj : str "</head>" <+: body.drop i) : False := by
  obtain ⟨t, ht⟩ := hi
  obtain ⟨t2, ht2⟩ := hj
  rw [← ht, str_openHead, str_closeHead] at ht2
  simp at ht2

/-- When the first `<head>` comes before the first `</head>`, `extract`
returns the bytes between the two markers. -/
theorem extract_ok_of_ordered {body : Bytes} {i j : Nat}
    (hi : IsFirstIndex (str "<head>") body i) (hj : IsFirstIndex (str "</head>") body j)
    (hij : i < j) :
    extract body = .ok ((body.drop (i + 6)).take (j - (i + 6))) := by
  have h6 := markers_apart hi.1 hj.1 hij
  have hb := marker_close_bound hj.1
  rw [extract_eq_slice hi hj]
  have hc : (0 : Int) ≤ (i : Int) + 6 ∧ (i : Int) + 6 ≤ (j : Int) ∧ (j : Int) ≤ (body.length : Int) := by
    omega
  have e1 : ((i : Int) + 6).toNat = i + 6 := by omega
  have e2 : ((j : Int)).toNat = j := by omega
  simp only [sliceExpr, hc, and_self, if_true, e1, e2]

/-- C1 (failing input): on the payload `</head><head>`, which contains both
markers, `extract` does not return the bytes between them: the slice
expression `body[start+6 : end]` is `body[13:0]` and the call panics. -/
theorem extract_panics_on_reversed_markers :
    ContainsBytes (str "</head><head>") (str "<head>") ∧
    ContainsBytes (str "</head><head>") (str "</head>") ∧
    bytes.Index (str "</head><head>") (str "<head>") = 7 ∧
    bytes.Index (str "</head><head>") (str "</head>") = 0 ∧
    extract (str "</head><head>") = .panic := by
  refine ⟨⟨str "</head>", [], by decide⟩, ⟨[], str "<head>", by decide⟩, by decide, by decide,
    by decide⟩

theorem extract_no_open {body : Bytes} (h : ¬ ContainsBytes body (str "<head>")) :
    extract body = .fail errNoOpeningHead := by
  simp [extract, index_of_not_contains h]

theorem extract_no_close {body : Bytes} (h1 : ContainsBytes body (str "<head>"))
    (h2 : ¬ ContainsBytes body (str "</head>")) : extract body = .fail errNoClosingHead := by
  obtain ⟨i, hi⟩ := isFirstIndex_of_contains h1
  have e1 : ¬ ((i : Int) = -1) := by omega
  simp [extract, index_of_isFirstIndex hi, index_of_not_contains h2, e1]

/-- C4: a payload without `<head>` makes `extract` fail with the
missing-opening-marker error, whether or not `</head>` is present; a payload
with `<head>` but without `</head>` makes it fail with the
missing-closing-marker error; the two errors differ, and in both cases the
result is the error, not a fragment. -/
theorem extract_missing_marker (body : Bytes) :
    (¬ ContainsBytes body (str "<head>") → extract body = .fail errNoOpeningHead) ∧
    (ContainsBytes body (str "<head>") → ¬ ContainsBytes body (str "</head>") →
      extract body = .fail errNoClosingHead) ∧
    errNoOpeningHead ≠ errNoClosingHead ∧
    errNoOpeningHead.Error ≠ errNoClosingHead.Error := by
  exact ⟨extract_no_open, extract_no_close, by decide, by decide⟩

/-- C4 at concrete payloads: `x</head>` lacks the opening marker (and has the
closing one), `<head><title>` lacks the closing one. -/
theorem extract_missing_marker_witness :
    extract (str "x</head>") = .fail errNoOpeningHead ∧
    extract (str "<head><title>") = .fail errNoClosingHead := by
  refine ⟨(extract_missing_marker (str "x</head>")).1 ?_,
    (extract_missing_marker (str "<head><title>")).2.1 ⟨[], str "<title>", by decide⟩ ?_⟩
  · rw [containsBytes_iff_drop]
    rintro ⟨j, hj⟩
    have hl := hj.length_le
    have : (str "x</head>").length = 8 := by decide
    have h6 : (str "<head>").length = 6 := by decide
    simp only [List.length_drop, this, h6] at hl
    have : j = 0 ∨ j = 1 ∨ j = 2 := by omega
    rcases this with h | h | h <;> subst h <;> revert hj <;> decide
  · rw [containsBytes_iff_drop]
    rintro ⟨j, hj⟩
    have hl := hj.length_le
    have : (str "<head><title>").length = 13 := by decide
    have h6 : (str "</head>").length = 7 := by decide
    simp only [List.length_drop, this, h6] at hl
    have : j = 0 ∨ j = 1 ∨ j = 2 ∨ j = 3 ∨ j = 4 ∨ j = 5 ∨ j = 6 := by omega
    rcases this with h | h | h | h | h | h | h <;> subst h <;> revert hj <;> decide

/-- C10: with `i` the index of the first `<head>` and `j` the index of the
first `</head>` in a payload: if `j > i` then `i+6 <= j <= len(body)`, the
slice `body[i+6:j]` is in bounds and `extract` returns it; if `j < i` then
`i+6 > j`, the slice expression is out of range, and `extract` panics, so it
returns neither a fragment nor one of its two errors.  The two indices are
never equal, and `</head><head>` is a payload of the second kind. -/
theorem extract_slice_bounds (body : Bytes) (i j : Nat)
    (hi : IsFirstIndex (str "<head>") body i) (hj : IsFirstIndex (str "</head>") body j) :
    i ≠ j ∧
    (i < j → i + 6 ≤ j ∧ j ≤ body.length ∧
      sliceExpr body ((i : Int) + 6) (j : Int) = some ((body.drop (i + 6)).take (j - (i + 6))) ∧
      extract body = .ok ((body.drop (i + 6)).take (j - (i + 6)))) ∧
    (j < i → j < i + 6 ∧ sliceExpr body ((i : Int) + 6) (j : Int) = none ∧
      extract body = .panic ∧ (∀ content, extract body ≠ .ok content) ∧
      (∀ e, extract body ≠ .fail e)) ∧
    extract (str "</head><head>") = .panic := by
  refine ⟨?_, ?_, ?_, by decide⟩
  · intro h
    subst h
    exact markers_distinct_index hi.1 hj.1
  · intro hij
    have h6 := markers_apart hi.1 hj.1 hij
    have hb := marker_close_bound hj.1
    refine ⟨h6, by omega, ?_, extract_ok_of_ordered hi hj hij⟩
    have hc : (0 : Int) ≤ (i : Int) + 6 ∧ (i : Int) + 6 ≤ (j : Int) ∧
        (j : Int) ≤ (body.length : Int) := by omega
    have e1 : ((i : Int) + 6).toNat = i + 6 := by omega
    have e2 : ((j : Int)).toNat = j := by omega
    simp only [sliceExpr, hc, and_self, if_true, e1, e2]
  · intro hji
    have hs : sliceExpr body ((i : Int) + 6) (j : Int) = none := by
      have hc : ¬ ((0 : Int) ≤ (i : Int) + 6 ∧ (i : Int) + 6 ≤ (j : Int) ∧
          (j : Int) ≤ (body.length : Int)) := by omega
      simp only [sliceExpr, hc, if_false]
    have hp : extract body = .panic := by rw [extract_eq_slice hi hj, hs]
    refine ⟨by omega, hs, hp, ?_, ?_⟩
    · intro content; rw [hp]; exact fun h => by cases h
    · intro e; rw [hp]; exact fun h => by cases h

/-- C10 at the payload `</head><head>`: the first `<head>` is at index 7, the
first `</head>` at index 0, and `extract` panics. -/
theorem extract_slice_bounds_witness :
    IsFirstIndex (str "<head>") (str "</head><head>") 7 ∧
    IsFirstIndex (str "</head>") (str "</head><head>") 0 ∧
    sliceExpr (str "</head><head>") 13 0 = none ∧
    extract (str "</head><head>") = .panic := by
  have h7 : IsFirstIndex (str "<head>") (str "</head><head>") 7 := by
    refine ⟨by decide, ?_⟩
    intro k hk
    have : k = 0 ∨ k = 1 ∨ k = 2 ∨ k = 3 ∨ k = 4 ∨ k = 5 ∨ k = 6 := by omega
    rcases this with h | h | h | h | h | h | h <;> subst h <;> decide
  have h0 : IsFirstIndex (str "</head>") (str "</head><head>") 0 :=
    ⟨by decide, fun k hk => by omega⟩
  have h := (extract_slice_bounds (str "</head><head>") 7 0 h7 h0).2.2.1 (by decide)
  exact ⟨h7, h0, h.2.1, h.2.2.1⟩

/-! ## fetch: requests and headers -/

theorem get_requests (env : Env) (s : State) (u : Bytes) :
    (http.Get env s u).2.requests = s.requests ∨
    (http.Get env s u).2.requests =
      s.requests ++ [{ Method := str "GET", URL := u, Header := [] }] := by
  unfold http.Get http.NewRequest
  cases env.NewRequestErr (str "GET") u <;> simp

theorem get_state (env : Env) (s : State) (u : Bytes) :
    (http.Get env s u).2.wHeader = s.wHeader ∧ (http.Get env s u).2.stdout = s.stdout := by
  unfold http.Get http.NewRequest
  cases env.NewRequestErr (str "GET") u <;> simp

theorem get_ok_newRequest {env : Env} {s : State} {u : Bytes} {resp : http.Response}
    (h : (http.Get env s u).1 = .ok resp) :
    http.NewRequest env http.MethodGet u = .ok { Method := str "GET", URL := u, Header := [] } := by
  unfold http.Get at h
  unfold http.NewRequest at h ⊢
  unfold http.MethodGet
  cases hn : env.NewRequestErr (str "GET") u with
  | none => rfl
  | some e => simp [hn] at h

/-- When the URL resolves, the GET succeeds and the body is read, `fetch`
ends with the headers copied; its result depends on `Close` only. -/
theorem fetch_of_get_ok {env : Env} {s : State} {r : http.Request} {url : Bytes}
    {parsed : uri.URL} {resp : http.Response} {body : Bytes}
    (hp : fetchResolve url = .ok parsed)
    (hg : (http.Get env s parsed.String).1 = .ok resp)
    (hb : resp.ReadAll = .ok body) :
    fetch env s r url =
      ((match resp.Close with
        | some err => Ret.fail err
        | none => Ret.ok (parsed.String, body)),
       { (http.Get env s parsed.String).2 with
          wHeader := copyHeaders (http.Get env s parsed.String).2.wHeader resp.Header }) := by
  have hn := get_ok_newRequest hg
  unfold fetch
  simp only [hp, hn]
  rcases hget : http.Get env s parsed.String with ⟨res, s1⟩
  rw [hget] at hg
  simp only at hg
  subst hg
  simp only [hb]
  cases resp.Close <;> rfl

/-- Every request `fetch` hands to the HTTP client is a GET with an empty
header map, whatever the inbound request `r` carries. -/
theorem fetch_requests (env : Env) (s : State) (r : http.Request) (url : Bytes) :
    (fetch env s r url).2.requests = s.requests ∨
    ∃ abs, (fetch env s r url).2.requests =
      s.requests ++ [{ Method := str "GET", URL := abs, Header := [] }] := by
  unfold fetch
  cases fetchResolve url with
  | error e => left; rfl
  | ok parsed =>
    simp only
    cases http.NewRequest env http.MethodGet parsed.String with
    | error e => left; rfl
    | ok req0 =>
      simp only
      have hreq := get_requests env s parsed.String
      rcases hget : http.Get env s parsed.String with ⟨res, s1⟩
      rw [hget] at hreq
      simp only at hreq
      have key : s1.requests = s.requests ∨
          ∃ abs, s1.requests = s.requests ++ [{ Method := str "GET", URL := abs, Header := [] }] := by
        rcases hreq with h | h
        · exact Or.inl h
        · exact Or.inr ⟨_, h⟩
      cases res with
      | error e => exact key
      | ok resp =>
        simp only
        cases resp.ReadAll with
        | error e => exact key
        | ok body =>
          simp only
          cases resp.Close <;> exact key

/-- C7 (failing input): the inbound request carries `Accept: text/html`, the
URL `example.com/page` resolves and the GET succeeds, but the one request
`fetch` sends is a GET to `https://example.com/page` with an empty header
map, not with the inbound headers. -/
theorem fetch_drops_inbound_headers :
    inboundRequest.Header = [(str "Accept", [str "text/html"])] ∧
    (fetch (worldServing [] (str "<head></head>") emptyDocument) initialState inboundRequest
        (str "example.com/page")).1 = .ok (str "https://example.com/page", str "<head></head>") ∧
    (fetch (worldServing [] (str "<head></head>") emptyDocument) initialState inboundRequest
        (str "example.com/page")).2.requests =
      [{ Method := str "GET", URL := str "https://example.com/page", Header := [] }] ∧
    ∀ req ∈ (fetch (worldServing [] (str "<head></head>") emptyDocument) initialState
        inboundRequest (str "example.com/page")).2.requests, req.Header ≠ inboundRequest.Header := by
  have h2 : (fetch (worldServing [] (str "<head></head>") emptyDocument) initialState
      inboundRequest (str "example.com/page")).2.requests =
      [{ Method := str "GET", URL := str "https://example.com/page", Header := [] }] := by
    decide!
  refine ⟨rfl, by decide!, h2, ?_⟩
  intro req hreq
  rw [h2] at hreq
  simp at hreq
  subst hreq
  decide

/-! ## fetch: response headers -/

theorem lookup_assign_same (h : http.Header) (k : Bytes) (v : List Bytes) :
    (http.Header.assign h k v).lookup k = some v := by
  induction h with
  | nil => simp [http.Header.assign, http.Header.lookup]
  | cons kv rest ih =>
    obtain ⟨k0, v0⟩ := kv
    by_cases hk : k0 = k
    · simp [http.Header.assign, http.Header.lookup, hk]
    · simp [http.Header.assign, http.Header.lookup, hk, ih]

theorem lookup_assign_other (h : http.Header) (k k2 : Bytes) (v : List Bytes) (hne : k ≠ k2) :
    (http.Header.assign h k v).lookup k2 = h.lookup k2 := by
  induction h with
  | nil => simp [http.Header.assign, http.Header.lookup, hne]
  | cons kv rest ih =>
    obtain ⟨k0, v0⟩ := kv
    by_cases hk : k0 = k
    · subst hk
      simp [http.Header.assign, http.Header.lookup, hne]
    · by_cases hk2 : k0 = k2
      · subst hk2
        simp [http.Header.assign, http.Header.lookup, hk]
      · simp [http.Header.assign, http.Header.lookup, hk, hk2, ih]

theorem copyHeaders_other (resp : http.Header) :
    ∀ (w : http.Header) (k : Bytes),
      (∀ kv ∈ resp, textproto.CanonicalMIMEHeaderKey kv.1 ≠ k) →
      (copyHeaders w resp).lookup k = w.lookup k := by
  induction resp with
  | nil => intro w k _; rfl
  | cons kv rest ih =>
    intro w k h
    have h1 := h kv (List.mem_cons_self _ _)
    have h2 : ∀ kv2 ∈ rest, textproto.CanonicalMIMEHeaderKey kv2.1 ≠ k :=
      fun kv2 hm => h kv2 (List.mem_cons_of_mem _ hm)
    simp only [copyHeaders, List.foldl_cons]
    have := ih (http.Header.Set w kv.1 (strings.Join kv.2 (str ","))) k h2
    simp only [copyHeaders] at this
    rw [this]
    exact lookup_assign_other _ _ _ _ h1

theorem copyHeaders_values (resp : http.Header) :
    ∀ (w : http.Header),
      (resp.map (fun kv => textproto.CanonicalMIMEHeaderKey kv.1)).Nodup →
      ∀ k v, (k, v) ∈ resp →
        (copyHeaders w resp).Values k = some [strings.Join v (str ",")] := by
  induction resp with
  | nil => intro w _ k v hm; simp at hm
  | cons kv rest ih =>
    intro w hn k v hm
    simp only [List.map_cons, List.nodup_cons] at hn
    unfold http.Header.Values
    simp only [copyHeaders, List.foldl_cons]
    rcases List.mem_cons.mp hm with h | h
    · subst h
      have hother : ∀ kv2 ∈ rest,
          textproto.CanonicalMIMEHeaderKey kv2.1 ≠ textproto.CanonicalMIMEHeaderKey k := by
        intro kv2 h2 heq
        exact hn.1 (List.mem_map.mpr ⟨kv2, h2, heq⟩)
      have := copyHeaders_other rest (http.Header.Set w k (strings.Join v (str ",")))
        (textproto.CanonicalMIMEHeaderKey k) hother
      simp only [copyHeaders] at this
      rw [this]
      exact lookup_assign_same _ _ _
    · have := ih (http.Header.Set w kv.1 (strings.Join kv.2 (str ","))) hn.2 k v h
      simpa only [copyHeaders, http.Header.Values] using this

/-! ## ExtractContent -/

theorem handleErr_fst (env : Env) (s : State) (err : GoError) :
    (handleErr env s err).1 = noticeHead ++ template.JSEscapeString env err.Error ++ noticeTail :=
  rfl

theorem handleErr_state (env : Env) (s : State) (err : GoError) :
    (handleErr env s err).2.wHeader = s.wHeader ∧
    (handleErr env s err).2.requests = s.requests := ⟨rfl, rfl⟩

/-- The outbound headers and the requests sent are those `fetch` leaves
behind, whatever the later stages do. -/
theorem extractContent_state (env : Env) (s : State) (r : http.Request) (url : Bytes) :
    (ExtractContent env s r url).2.wHeader = (fetch env s r url).2.wHeader ∧
    (ExtractContent env s r url).2.requests = (fetch env s r url).2.requests := by
  unfold ExtractContent
  rcases hf : fetch env s r url with ⟨res, s1⟩
  cases res with
  | panic => exact ⟨rfl, rfl⟩
  | fail e => exact ⟨rfl, rfl⟩
  | ok v =>
    obtain ⟨abs, body⟩ := v
    simp only
    cases extract body with
    | panic => exact ⟨rfl, rfl⟩
    | fail e => exact ⟨rfl, rfl⟩
    | ok content =>
      simp only
      cases replaceRelativePaths env abs content with
      | panic => exact ⟨rfl, rfl⟩
      | fail e => exact ⟨rfl, rfl⟩
      | ok out => exact ⟨rfl, rfl⟩

/-- The text `Error:` is part of every notice. -/
theorem notice_contains_label (esc : Bytes) :
    ContainsBytes (noticeHead ++ esc ++ noticeTail) (str "Error:") := by
  have h : ContainsBytes noticeHead (str "Error:") := by
    unfold ContainsBytes
    decide!
  obtain ⟨a, b, hab⟩ := h
  exact ⟨a, b ++ esc ++ noticeTail, by rw [← hab]; simp [List.append_assoc]⟩

/-- The escaped message is part of the notice. -/
theorem notice_contains_message (esc : Bytes) :
    ContainsBytes (noticeHead ++ esc ++ noticeTail) esc :=
  ⟨noticeHead, noticeTail, rfl⟩

/-- Whenever no stage panics, `ExtractContent` returns; the result is the notice of the first failing stage, or the
rewritten fragment when the three stages succeed. -/
theorem extractContent_cases (env : Env) (s : State) (r : http.Request) (url : Bytes) :
    (∀ e, (fetch env s r url).1 = .fail e →
      (ExtractContent env s r url).1 =
        .returned (noticeHead ++ template.JSEscapeString env e.Error ++ noticeTail)) ∧
    (∀ abs body e, (fetch env s r url).1 = .ok (abs, body) → extract body = .fail e →
      (ExtractContent env s r url).1 =
        .returned (noticeHead ++ template.JSEscapeString env e.Error ++ noticeTail)) ∧
    (∀ abs body content e, (fetch env s r url).1 = .ok (abs, body) → extract body = .ok content →
      replaceRelativePaths env abs content = .fail e →
      (ExtractContent env s r url).1 =
        .returned (noticeHead ++ template.JSEscapeString env e.Error ++ noticeTail)) ∧
    (∀ abs body content replaced, (fetch env s r url).1 = .ok (abs, body) →
      extract body = .ok content → replaceRelativePaths env abs content = .ok replaced →
      (ExtractContent env s r url).1 = .returned replaced) ∧
    (∀ abs body, (fetch env s r url).1 = .ok (abs, body) → extract body = .panic →
      (ExtractContent env s r url).1 = .panicked) := by
  unfold ExtractContent
  rcases hf : fetch env s r url with ⟨res, s1⟩
  refine ⟨?_, ?_, ?_, ?_, ?_⟩
  · intro e h
    simp only at h
    subst h
    rfl
  · intro abs body e h he
    simp only at h
    subst h
    simp only [he]
    rfl
  · intro abs body content e h he hr
    simp only at h
    subst h
    simp only [he, hr]
    rfl
  · intro abs body content replaced h he hr
    simp only at h
    subst h
    simp only [he, hr]
  · intro abs body h he
    simp only at h
    subst h
    simp only [he]

/-- C5 (failing input): the remote host answers the GET for
`https://example.com/page` with the payload `</head><head>`; `fetch`
succeeds, `extract` panics, and `ExtractContent` does not return renderable
content: it does not return at all. -/
theorem extractContent_panics_on_reversed_markers :
    (fetch (worldServing [] (str "</head><head>") emptyDocument) initialState inboundRequest
        (str "example.com/page")).1 = .ok (str "https://example.com/page", str "</head><head>") ∧
    (ExtractContent (worldServing [] (str "</head><head>") emptyDocument) initialState
        inboundRequest (str "example.com/page")).1 = .panicked ∧
    ∀ html, (ExtractContent (worldServing [] (str "</head><head>") emptyDocument) initialState
        inboundRequest (str "example.com/page")).1 ≠ .returned html := by
  have h : (ExtractContent (worldServing [] (str "</head><head>") emptyDocument) initialState
        inboundRequest (str "example.com/page")).1 = .panicked := by decide!
  refine ⟨by decide!, h, ?_⟩
  intro html
  rw [h]
  exact fun h2 => by cases h2

/-- C8: when the URL resolves, the GET succeeds and the body is read, then
for every header name `k` of the remote response with value list `v`, the
outbound response holds for `k` exactly the one value `strings.Join(v, ",")`,
whatever it held before: `w.Header().Values(k)` is that one value, and so is
the map entry `w.Header()[k]` when `k` is in canonical form, as the names
net/http reads are.  This is so after `fetch` and also after
`ExtractContent`, whether or not a later stage fails.  The remote header is a
map of names that stay distinct in canonical form. -/
theorem fetch_copies_response_headers (env : Env) (s : State) (r : http.Request) (url : Bytes)
    (parsed : uri.URL) (resp : http.Response) (body : Bytes)
    (hp : fetchResolve url = .ok parsed)
    (hg : (http.Get env s parsed.String).1 = .ok resp)
    (hb : resp.ReadAll = .ok body)
    (hmap : (resp.Header.map (fun kv => textproto.CanonicalMIMEHeaderKey kv.1)).Nodup) :
    ∀ k v, (k, v) ∈ resp.Header →
      (fetch env s r url).2.wHeader.Values k = some [strings.Join v (str ",")] ∧
      (ExtractContent env s r url).2.wHeader.Values k = some [strings.Join v (str ",")] ∧
      (textproto.CanonicalMIMEHeaderKey k = k →
        (ExtractContent env s r url).2.wHeader.lookup k = some [strings.Join v (str ",")]) := by
  intro k v hkv
  have hf := fetch_of_get_ok (r := r) hp hg hb
  have h1 : (fetch env s r url).2.wHeader.Values k = some [strings.Join v (str ",")] := by
    rw [hf]
    exact copyHeaders_values resp.Header _ hmap k v hkv
  have h2 : (ExtractContent env s r url).2.wHeader.Values k =
      some [strings.Join v (str ",")] := by
    rw [(extractContent_state env s r url).1]; exact h1
  refine ⟨h1, h2, ?_⟩
  intro hk
  unfold http.Header.Values at h2
  rw [hk] at h2
  exact h2

/-- C8 at a concrete world: the remote response has
`Content-Type: text/html` and `charset=utf-8` as two values, the outbound
response had two other values, and the payload `<head><title>` makes
`extract` fail; afterwards the outbound response has the one joined value. -/
theorem fetch_copies_response_headers_witness :
    (ExtractContent (worldServing remoteHeader (str "<head><title>") emptyDocument)
        stateWithHeader inboundRequest (str "example.com/page")).2.wHeader.lookup
      (str "Content-Type") = some [str "text/html,charset=utf-8"] ∧
    stateWithHeader.wHeader.lookup (str "Content-Type") =
      some [str "application/json", str "x"] ∧
    extract (str "<head><title>") = .fail errNoClosingHead :=
  ⟨(fetch_copies_response_headers (worldServing remoteHeader (str "<head><title>") emptyDocument)
      stateWithHeader inboundRequest (str "example.com/page")
      { Scheme := str "https", Path := str "example.com/page" }
      { Header := remoteHeader, ReadAll := .ok (str "<head><title>"), Close := none }
      (str "<head><title>") (by decide!) rfl rfl (by decide!)
      (str "Content-Type") [str "text/html", str "charset=utf-8"] (by decide!)).2.2 (by decide!),
    by decide!, by decide!⟩

/-! ## The notice for a missing closing marker -/

theorem jsEscape_errNoClosingHead (env : Env) :
    template.JSEscapeString env errNoClosingHead.Error =
      str "headproxy: closing \\u003C/head\\u003E tag not present in payload" := by
  rfl

/-- C9 as the code has it: whenever the fetched payload contains `<head>` but
no `</head>`, `ExtractContent` returns the notice of the missing-closing-marker
error; that notice is one fixed text, the same for every source URL: it holds
`Error:` and the escaped message
`headproxy: closing \u003C/head\u003E tag not present in payload`. -/
theorem extractContent_missing_close (env : Env) (s : State) (r : http.Request)
    (url abs body : Bytes)
    (hf : (fetch env s r url).1 = .ok (abs, body))
    (h1 : ContainsBytes body (str "<head>")) (h2 : ¬ ContainsBytes body (str "</head>")) :
    extract body = .fail errNoClosingHead ∧
    (ExtractContent env s r url).1 =
      .returned (noticeHead ++
        str "headproxy: closing \\u003C/head\\u003E tag not present in payload" ++ noticeTail) ∧
    ContainsBytes
      (noticeHead ++ str "headproxy: closing \\u003C/head\\u003E tag not present in payload" ++
        noticeTail) (str "Error:") := by
  have he := extract_no_close h1 h2
  refine ⟨he, ?_, notice_contains_label _⟩
  rw [(extractContent_cases env s r url).2.1 abs body errNoClosingHead hf he,
    jsEscape_errNoClosingHead]

/-- C9 (counterexample): the source URL is `https://example.com/page` and the
fetched payload `<head><title>` has `<head>` but no `</head>`;
`ExtractContent` returns the notice of the missing-closing-marker error, and
the text of that notice does not contain the source URL. -/
theorem extractContent_missing_close_notice_lacks_url :
    (fetch (worldServing [] (str "<head><title>") emptyDocument) initialState inboundRequest
        (str "https://example.com/page")).1 =
      .ok (str "https://example.com/page", str "<head><title>") ∧
    ContainsBytes (str "<head><title>") (str "<head>") ∧
    ¬ ContainsBytes (str "<head><title>") (str "</head>") ∧
    (ExtractContent (worldServing [] (str "<head><title>") emptyDocument) initialState
        inboundRequest (str "https://example.com/page")).1 =
      .returned (noticeHead ++
        str "headproxy: closing \\u003C/head\\u003E tag not present in payload" ++ noticeTail) ∧
    ¬ ContainsBytes
      (noticeHead ++ str "headproxy: closing \\u003C/head\\u003E tag not present in payload" ++
        noticeTail) (str "https://example.com/page") := by
  refine ⟨by decide!, ?_, ?_, by decide!, ?_⟩
  · unfold ContainsBytes; decide!
  · unfold ContainsBytes; decide!
  · unfold ContainsBytes; decide!

/-- C9 as the code has it, at the URL `https://example.com/page` with the
payload `<head><title>`. -/
theorem extractContent_missing_close_witness :
    (ExtractContent (worldServing [] (str "<head><title>") emptyDocument) initialState
        inboundRequest (str "https://example.com/page")).1 =
      .returned (noticeHead ++
        str "headproxy: closing \\u003C/head\\u003E tag not present in payload" ++ noticeTail) :=
  (extractContent_missing_close (worldServing [] (str "<head><title>") emptyDocument)
    initialState inboundRequest (str "https://example.com/page")
    (str "https://example.com/page") (str "<head><title>") (by decide!)
    (by unfold ContainsBytes; decide!) (by unfold ContainsBytes; decide!)).2.1

/-! ## net/url: the scheme of a parsed and of a printed URL -/

theorem byte_forall (P : UInt8 → Bool) (h : ∀ n : Fin 256, P ⟨⟨n⟩⟩ = true) (c : UInt8) :
    P c = true := by
  obtain ⟨⟨n⟩⟩ := c
  exact h n

theorem lower_letter (c : UInt8) (h : inRange 'A' 'Z' c = true) :
    isSchemeLetter (c + 32) = true := by
  have := byte_forall (fun c => !inRange 'A' 'Z' c || isSchemeLetter (c + 32)) (by decide) c
  simpa [h] using this

theorem other_not_upper (c : UInt8) (h : isSchemeOther c = true) :
    inRange 'A' 'Z' c = false := by
  have := byte_forall (fun c => !isSchemeOther c || !inRange 'A' 'Z' c) (by decide) c
  simpa [h] using this

theorem validScheme_toLower {s : Bytes} (h : ValidScheme s) : ValidScheme (strings.ToLower s) := by
  obtain ⟨c, t, hs, hc, ht⟩ := h
  subst hs
  have step : ∀ b : UInt8, (isSchemeLetter b = true →
      isSchemeLetter (if inRange 'A' 'Z' b = true then b + 32 else b) = true) := by
    intro b hb
    by_cases hu : inRange 'A' 'Z' b = true
    · simp only [hu, if_true]; exact lower_letter b hu
    · simp only [hu, if_false]; exact hb
  refine ⟨_, _, by simp only [strings.ToLower, List.map_cons]; rfl, step c hc, ?_⟩
  intro b hb
  obtain ⟨b0, hb0, rfl⟩ := List.mem_map.mp hb
  rcases ht b0 hb0 with h1 | h1
  · exact Or.inl (step b0 h1)
  · right
    simp only [other_not_upper b0 h1, Bool.false_eq_true, if_false]
    exact h1

theorem validScheme_ne_nil {s : Bytes} (h : ValidScheme s) : s ≠ [] := by
  obtain ⟨c, t, hs, _, _⟩ := h
  simp [hs]

theorem validScheme_snoc {acc : Bytes} {c : UInt8} (first : Bool)
    (h0 : first = true → acc = []) (h1 : first = false → ValidScheme acc)
    (hc : isSchemeLetter c = true ∨ (first = false ∧ isSchemeOther c = true)) :
    ValidScheme (acc ++ [c]) := by
  cases first with
  | true =>
    have := h0 rfl
    subst this
    rcases hc with hc | ⟨hf, _⟩
    · exact ⟨c, [], rfl, hc, by simp⟩
    · cases hf
  | false =>
    obtain ⟨a, t, hs, ha, ht⟩ := h1 rfl
    subst hs
    refine ⟨a, t ++ [c], rfl, ha, ?_⟩
    intro b hb
    rcases List.mem_append.mp hb with hb | hb
    · exact ht b hb
    · simp at hb
      subst hb
      rcases hc with hc | ⟨_, hc⟩
      · exact Or.inl hc
      · exact Or.inr hc

theorem getSchemeFrom_valid (rawURL : Bytes) (s : Bytes) :
    ∀ (first : Bool) (acc : Bytes) (scheme rest : Bytes),
      (first = true → acc = []) → (first = false → ValidScheme acc) →
      uri.getSchemeFrom rawURL first acc s = .ok (scheme, rest) →
      scheme = [] ∨ ValidScheme scheme := by
  induction s with
  | nil =>
    intro first acc scheme rest _ _ h
    simp only [uri.getSchemeFrom] at h
    cases h
    exact Or.inl rfl
  | cons c t ih =>
    intro first acc scheme rest h0 h1 h
    simp only [uri.getSchemeFrom] at h
    by_cases hl : (inRange 'a' 'z' c || inRange 'A' 'Z' c) = true
    · simp only [hl, if_true] at h
      exact ih false (acc ++ [c]) scheme rest (fun hf => by cases hf)
        (fun _ => validScheme_snoc first h0 h1 (Or.inl hl)) h
    · simp only [hl, if_false] at h
      by_cases ho : (inRange '0' '9' c || c == ch '+' || c == ch '-' || c == ch '.') = true
      · simp only [ho, if_true] at h
        cases first with
        | true =>
          simp only [if_true] at h
          cases h
          exact Or.inl rfl
        | false =>
          simp only [Bool.false_eq_true, if_false] at h
          exact ih false (acc ++ [c]) scheme rest (fun hf => by cases hf)
            (fun _ => validScheme_snoc false h0 h1 (Or.inr ⟨rfl, ho⟩)) h
      · simp only [ho, if_false] at h
        by_cases hcol : (c == ch ':') = true
        · simp only [hcol, if_true] at h
          cases first with
          | true => simp at h
          | false =>
            simp only [Bool.false_eq_true, if_false] at h
            cases h
            exact Or.inr (h1 rfl)
        · simp only [hcol, if_false] at h
          cases h
          exact Or.inl rfl

theorem getScheme_valid {rawURL scheme rest : Bytes}
    (h : uri.getScheme rawURL = .ok (scheme, rest)) : scheme = [] ∨ ValidScheme scheme :=
  getSchemeFrom_valid rawURL rawURL true [] scheme rest (fun _ => rfl) (fun hf => by cases hf) h

theorem getSchemeFrom_append (rawURL rest : Bytes) (t : Bytes) :
    ∀ acc : Bytes, (∀ b ∈ t, isSchemeLetter b = true ∨ isSchemeOther b = true) →
      uri.getSchemeFrom rawURL false acc (t ++ ch ':' :: rest) = .ok (acc ++ t, rest) := by
  induction t with
  | nil =>
    intro acc _
    have h1 : (inRange 'a' 'z' (ch ':') || inRange 'A' 'Z' (ch ':')) = false := by decide
    have h2 : (inRange '0' '9' (ch ':') || ch ':' == ch '+' || ch ':' == ch '-' ||
        ch ':' == ch '.') = false := by decide
    simp [uri.getSchemeFrom, h1, h2]
  | cons b t ih =>
    intro acc h
    have hb := h b (List.mem_cons_self _ _)
    have ht : ∀ b2 ∈ t, isSchemeLetter b2 = true ∨ isSchemeOther b2 = true :=
      fun b2 hm => h b2 (List.mem_cons_of_mem _ hm)
    rw [List.cons_append, uri.getSchemeFrom]
    by_cases hl : (inRange 'a' 'z' b || inRange 'A' 'Z' b) = true
    · rw [if_pos hl, ih (acc ++ [b]) ht]
      simp
    · have ho : (inRange '0' '9' b || b == ch '+' || b == ch '-' || b == ch '.') = true := by
        rcases hb with hb | hb
        · exact absurd hb hl
        · exact hb
      rw [if_neg hl, if_pos ho, if_neg (by simp), ih (acc ++ [b]) ht]
      simp

/-- A printed scheme is read back: `getScheme` splits `scheme ++ ":" ++ rest`
at the colon when `scheme` is a valid scheme. -/
theorem getScheme_of_valid {scheme : Bytes} (h : ValidScheme scheme) (rest : Bytes) :
    uri.getScheme (scheme ++ str ":" ++ rest) = .ok (scheme, rest) := by
  obtain ⟨c, t, hs, hc, ht⟩ := h
  subst hs
  have hcol : str ":" = [ch ':'] := by decide
  have hc2 : (inRange 'a' 'z' c || inRange 'A' 'Z' c) = true := hc
  rw [uri.getScheme, hcol, List.append_assoc, List.singleton_append, List.cons_append,
    uri.getSchemeFrom, if_pos hc2, List.nil_append, getSchemeFrom_append _ rest t [c] ht]
  simp

theorem setPath_scheme {u v : uri.URL} {p : Bytes} (h : u.setPath p = .ok v) :
    v.Scheme = u.Scheme := by
  unfold uri.URL.setPath at h
  split at h
  · cases h
  · cases h; rfl

theorem setFragment_scheme {u v : uri.URL} {f : Bytes} (h : u.setFragment f = .ok v) :
    v.Scheme = u.Scheme := by
  unfold uri.URL.setFragment at h
  split at h
  · cases h
  · cases h; rfl

theorem parse_scheme {raw : Bytes} {u : uri.URL} (h : uri.parse raw = .ok u) :
    u.Scheme = [] ∨ ValidScheme u.Scheme := by
  unfold uri.parse at h
  by_cases hc : uri.stringContainsCTLByte raw = true
  · rw [if_pos hc] at h; cases h
  · rw [if_neg hc] at h
    by_cases hstar : raw = str "*"
    · rw [if_pos hstar] at h; cases h; exact Or.inl rfl
    · rw [if_neg hstar] at h
      rcases hg : uri.getScheme raw with e | ⟨scheme, rest0⟩
      · rw [hg] at h; cases h
      · rw [hg] at h
        have hv : strings.ToLower scheme = [] ∨ ValidScheme (strings.ToLower scheme) := by
          rcases getScheme_valid hg with h0 | h0
          · left; rw [h0]; rfl
          · right; exact validScheme_toLower h0
        dsimp only at h
        repeat' split at h
        all_goals first
          | (cases h; done)
          | (cases h; exact hv)
          | (rw [setPath_scheme h]; exact hv)

theorem Parse_scheme {raw : Bytes} {u : uri.URL} (h : uri.Parse raw = .ok u) :
    u.Scheme = [] ∨ ValidScheme u.Scheme := by
  unfold uri.Parse at h
  dsimp only at h
  split at h
  · cases h
  · rename_i url hp
    split at h
    · cases h; exact parse_scheme hp
    · split at h
      · cases h
      · rename_i url2 hf
        cases h
        rw [setFragment_scheme hf]
        exact parse_scheme hp

/-- A URL with a scheme is printed with the scheme and a colon first. -/
theorem string_scheme_prefix (u : uri.URL) (h : u.Scheme ≠ []) :
    ∃ rest, u.String = u.Scheme ++ str ":" ++ rest := by
  unfold uri.URL.String
  simp only [h, ne_eq, not_false_eq_true, if_true]
  split
  · exact ⟨_, by simp only [List.append_assoc]; rfl⟩
  · exact ⟨_, by simp only [List.append_assoc]; rfl⟩

/-! ## fetch: the resolved URL -/

theorem fetch_ok_absoluteURL {env : Env} {s : State} {r : http.Request} {url a body : Bytes}
    (h : (fetch env s r url).1 = .ok (a, body)) :
    ∃ parsed, fetchResolve url = .ok parsed ∧ a = parsed.String := by
  unfold fetch at h
  rcases hr : fetchResolve url with e | parsed
  · rw [hr] at h; cases h
  · rw [hr] at h
    refine ⟨parsed, rfl, ?_⟩
    dsimp only at h
    rcases hn : http.NewRequest env http.MethodGet parsed.String with e | req0
    · rw [hn] at h; cases h
    · rw [hn] at h
      dsimp only at h
      rcases hget : http.Get env s parsed.String with ⟨res, s1⟩
      rw [hget] at h
      cases res with
      | error e => cases h
      | ok resp =>
        dsimp only at h
        cases hb : resp.ReadAll with
        | error e => rw [hb] at h; cases h
        | ok b =>
          rw [hb] at h
          dsimp only at h
          cases hcl : resp.Close with
          | some e => rw [hcl] at h; cases h
          | none =>
            rw [hcl] at h
            cases h
            rfl

/-- C6: for every URL string that parses, the URL `fetch` resolves it to has
a non-empty scheme, `https` when the parsed input has no scheme and the
input's own scheme otherwise; the printed absolute URL starts with that
scheme and a colon and `getScheme` reads the scheme back from it; it is the
URL `fetch` returns when it succeeds.  The input `example.com/page` resolves
to `https://example.com/page`. -/
theorem fetchResolve_scheme (url : Bytes) (parsed : uri.URL) (hp : uri.Parse url = .ok parsed) :
    ∃ abs : uri.URL, fetchResolve url = .ok abs ∧
      abs.Scheme ≠ [] ∧
      (parsed.Scheme = [] → abs.Scheme = str "https") ∧
      (parsed.Scheme ≠ [] → abs.Scheme = parsed.Scheme) ∧
      (∃ rest, abs.String = abs.Scheme ++ str ":" ++ rest ∧
        uri.getScheme abs.String = .ok (abs.Scheme, rest)) ∧
      (∀ env s r a body, (fetch env s r url).1 = .ok (a, body) → a = abs.String) ∧
      (fetchResolve (str "example.com/page")).map uri.URL.String =
        .ok (str "https://example.com/page") := by
  have hres : fetchResolve url =
      .ok (if parsed.Scheme = [] then { parsed with Scheme := str "https" } else parsed) := by
    unfold fetchResolve
    rw [hp]
  have hhttps : ValidScheme (str "https") :=
    ⟨ch 'h', str "ttps", by decide, by decide, by decide⟩
  refine ⟨_, hres, ?_⟩
  have hvalid : ValidScheme
      (if parsed.Scheme = [] then { parsed with Scheme := str "https" } else parsed).Scheme := by
    by_cases h0 : parsed.Scheme = []
    · rw [if_pos h0]; exact hhttps
    · rw [if_neg h0]
      rcases Parse_scheme hp with h1 | h1
      · exact absurd h1 h0
      · exact h1
  refine ⟨validScheme_ne_nil hvalid, ?_, ?_, ?_, ?_, by decide!⟩
  · intro h0; rw [if_pos h0]
  · intro h0; rw [if_neg h0]
  · obtain ⟨rest, hrest⟩ := string_scheme_prefix _ (validScheme_ne_nil hvalid)
    exact ⟨rest, hrest, by rw [hrest]; exact getScheme_of_valid hvalid rest⟩
  · intro env s r a body h
    obtain ⟨p2, hp2, ha⟩ := fetch_ok_absoluteURL h
    rw [hres] at hp2
    cases hp2
    exact ha

/-- C6 at the input `example.com/page`, which parses to a URL without a
scheme and with the path `example.com/page`. -/
theorem fetchResolve_scheme_witness :
    uri.Parse (str "example.com/page") = .ok { Path := str "example.com/page" } ∧
    ∃ abs : uri.URL, fetchResolve (str "example.com/page") = .ok abs ∧
      abs.Scheme ≠ [] ∧ abs.Scheme = str "https" ∧
      abs.String = str "https://example.com/page" := by
  have hp : uri.Parse (str "example.com/page") = .ok { Path := str "example.com/page" } := by
    decide!
  obtain ⟨abs, h1, h2, h3, _, _, _, _⟩ :=
    fetchResolve_scheme (str "example.com/page") { Path := str "example.com/page" } hp
  refine ⟨hp, abs, h1, h2, h3 rfl, ?_⟩
  have h4 : fetchResolve (str "example.com/page") =
      .ok { Scheme := str "https", Path := str "example.com/page" } := by decide!
  rw [h4] at h1
  cases h1
  decide!

/-! ## goquery: attributes and selections -/

theorem tagSelector_mk (tag : Bytes) (t : html.NodeType) (d ns : Bytes)
    (a a2 : List html.Attribute) (kids kids2 : List html.Node) :
    goquery.tagSelector tag (.mk t d ns a kids) = goquery.tagSelector tag (.mk t d ns a2 kids2) :=
  rfl

mutual

theorem matchAll_eachAll (tag : Bytes) (f : html.Node → List html.Attribute) :
    ∀ n : html.Node,
      (goquery.matchAll (goquery.tagSelector tag)
        (goquery.eachAll (goquery.tagSelector tag) f n)).map html.Node.Attr =
      (goquery.matchAll (goquery.tagSelector tag) n).map f
  | .mk t d ns a kids => by
    rw [goquery.eachAll, goquery.matchAll, goquery.matchAll, List.map_append, List.map_append,
      matchAllList_eachAllList tag f kids,
      tagSelector_mk tag t d ns _ a _ kids]
    by_cases hm : goquery.tagSelector tag (.mk t d ns a kids) = true
    · simp only [hm, if_true, List.map_cons, List.map_nil]
      rfl
    · simp only [hm, if_false, List.map_nil]
      rfl

theorem matchAllList_eachAllList (tag : Bytes) (f : html.Node → List html.Attribute) :
    ∀ l : List html.Node,
      (goquery.matchAll.matchAllList (goquery.tagSelector tag)
        (goquery.eachAll.eachAllList (goquery.tagSelector tag) f l)).map html.Node.Attr =
      (goquery.matchAll.matchAllList (goquery.tagSelector tag) l).map f
  | [] => rfl
  | c :: rest => by
    rw [goquery.eachAll.eachAllList, goquery.matchAll.matchAllList, goquery.matchAll.matchAllList,
      List.map_append, List.map_append, matchAll_eachAll tag f c,
      matchAllList_eachAllList tag f rest]

end

